import Mathlib

/-!
# The real-time conversation view of `src/pages/Messages.js`

A shallow embedding of the `Messages` React component.  The component state
(`useState` cells and `useRef` cells) is a record; every listener, effect and
DOM handler of the component is a function on that record.  The environment
the component talks to is made explicit in the same record:

* the socket: `emitted` is the trace of `socketRef.current.emit` calls, each
  stamped with the time of the call;
* the browser timers: `timers` is the set of pending `setTimeout` callbacks,
  `advance` lets time pass and runs the callbacks that are due;
* the REST client: `requests` is the trace of axios calls, `inflight` the
  calls whose promise is still pending; a response is an event.

Closures are modelled by what they capture.  The listeners registered by the
connection effect (lines 47-77) close over the `user` and the
`selectedConversation` of the render in which the effect ran; the effect has
the dependency list `[user, token]`, so these captured values are stored in
`listeners` and change only when the effect runs again.  Handlers created in
the render body (`handleTyping`, `handleSendMessage`, `fetchMessages`) see the
values of the latest render, which are the fields of the state.

Time is in milliseconds; `createdAt` is a number of milliseconds too.  Timers
are idealised: a callback runs exactly when it is due.
-/

namespace Messages

/-! ## Data model -/

/-- The authenticated user handed out by `useAuth()`; the view reads `user.id` only. -/
structure User where
  id : String
  deriving DecidableEq, Repr

/-- The `sender` sub-document of a message (`msg.sender._id`). -/
structure Sender where
  _id : String
  deriving DecidableEq, Repr

/-- A chat message as delivered by the REST snapshot and by `new-message`. -/
structure Message where
  _id : String
  conversation : String
  sender : Sender
  text : String
  createdAt : Nat
  read : Bool
  deriving DecidableEq, Repr

/-- The `otherParticipant` summary of a conversation. -/
structure Participant where
  _id : String
  name : String
  deriving DecidableEq, Repr

/-- A conversation summary of `GET /chat/conversations`.  `otherParticipant`
may be missing: the markup reads it with `?.`. -/
structure Conversation where
  _id : String
  otherParticipant : Option Participant
  deriving DecidableEq, Repr

/-- Payload of the inbound `user-typing` event. -/
structure TypingData where
  userId : String
  userName : String
  conversationId : String
  deriving DecidableEq, Repr

/-- Events the view emits on the socket. -/
inductive Emit where
  | joinConversation (conversationId : String)
  | leaveConversation (conversationId : String)
  | sendMessage (conversationId text receiverId : String)
  | typing (conversationId : String) (isTyping : Bool)
  deriving DecidableEq, Repr

/-- The three axios calls of the view. -/
inductive Request where
  | getConversations
  | getMessages (conversationId : String)
  | putRead (conversationId : String)
  deriving DecidableEq, Repr

/-- The two `setTimeout` callbacks of the view: the auto-hide of the remote
typing indicator (lines 61-64) and the deferred `typing` emission of
`handleTyping` (lines 180-185), which closes over the conversation id. -/
inductive TimerAction where
  | hideIndicator
  | typingFalse (conversationId : String)
  deriving DecidableEq, Repr

/-- A pending browser timer. -/
structure Timer where
  id : Nat
  due : Nat
  action : TimerAction
  deriving DecidableEq, Repr

/-- What the listeners registered by the connection effect close over. -/
structure Listeners where
  user : User
  selectedConversation : Option Conversation
  deriving DecidableEq, Repr

/-- Component state, refs and environment. -/
structure State where
  /-- Value of `useAuth().user` in the latest render. -/
  user : Option User
  /-- Value of `localStorage.getItem('token')` in the latest render. -/
  token : Option String
  conversations : List Conversation
  selectedConversation : Option Conversation
  messages : List Message
  newMessage : String
  loading : Bool
  sending : Bool
  typing : Bool
  typingUser : Option String
  /-- Handle held by `socketRef.current`; `none` is `null`. -/
  socketRef : Option Nat
  /-- Timer id held by `typingTimeoutRef.current`; `none` is `null`. -/
  typingTimeoutRef : Option Nat
  /-- Listeners of the open connection; `none` when no connection is open. -/
  listeners : Option Listeners
  /-- Whether the last run of the connection effect returned its cleanup. -/
  cleanupArmed : Bool
  now : Nat
  timers : List Timer
  nextTimer : Nat
  nextSocket : Nat
  emitted : List (Nat × Emit)
  requests : List Request
  inflight : List Request
  toasts : List String
  deriving DecidableEq, Repr

/-- State of the first render (lines 14-24): every `useState` initial value,
both refs `null`, nothing emitted or requested.  Browser timer ids start at 1. -/
def initial (user : Option User) (token : Option String) : State where
  user := user
  token := token
  conversations := []
  selectedConversation := none
  messages := []
  newMessage := ""
  loading := true
  sending := false
  typing := false
  typingUser := none
  socketRef := none
  typingTimeoutRef := none
  listeners := none
  cleanupArmed := false
  now := 0
  timers := []
  nextTimer := 1
  nextSocket := 1
  emitted := []
  requests := []
  inflight := []
  toasts := []

/-! ## Environment primitives -/

/-- The call `socketRef.current?.emit(...)`: recorded when the ref holds a socket. -/
def emit (s : State) (e : Emit) : State :=
  match s.socketRef with
  | some _ => { s with emitted := s.emitted ++ [(s.now, e)] }
  | none => s

/-- The call `clearTimeout(id)`: a `null` id is ignored. -/
def clearTimeout (s : State) (id : Option Nat) : State :=
  match id with
  | some i => { s with timers := s.timers.filter (fun tm => tm.id != i) }
  | none => s

/-- The call `setTimeout(callback, delay)`: returns the state and the fresh id. -/
def setTimeout (s : State) (action : TimerAction) (delay : Nat) : State × Nat :=
  ({ s with timers := s.timers ++ [⟨s.nextTimer, s.now + delay, action⟩],
            nextTimer := s.nextTimer + 1 }, s.nextTimer)

/-- An axios call up to its `await`: the request is sent and pending. -/
def request (s : State) (r : Request) : State :=
  { s with requests := s.requests ++ [r], inflight := s.inflight ++ [r] }

/-- The call `toast.error(text)`. -/
def toastError (s : State) (text : String) : State :=
  { s with toasts := s.toasts ++ [text] }

/-! ## REST snapshot (lines 118-147) -/

/-- The function `fetchConversations` up to its `await` (line 120). -/
def fetchConversations (s : State) : State :=
  request s .getConversations

/-- Continuation of `fetchConversations` when the GET resolves (lines 123, 128). -/
def fetchConversationsOk (s : State) (data : List Conversation) : State :=
  { s with conversations := data, loading := false }

/-- Continuation of `fetchConversations` when the GET rejects (lines 124-128). -/
def fetchConversationsFail (s : State) : State :=
  { toastError s "Failed to load conversations" with loading := false }

/-- The function `fetchMessages` up to its first `await` (line 134). -/
def fetchMessages (s : State) (conversationId : String) : State :=
  request s (.getMessages conversationId)

/-- Continuation of `fetchMessages` when the GET resolves: `setMessages(response.data)`
(line 137), then the mark-read PUT up to its `await` (line 140). -/
def fetchMessagesOk (s : State) (conversationId : String) (data : List Message) : State :=
  request { s with messages := data } (.putRead conversationId)

/-- The `catch` block of `fetchMessages` (lines 143-146); it is entered when the
GET rejects and when the PUT rejects. -/
def fetchMessagesFail (s : State) : State :=
  toastError s "Failed to load messages"

/-! ## Socket listeners (lines 47-81) -/

/-- Listener of `new-message` (lines 47-54).  The test of line 48 reads the
`selectedConversation` the listener closed over. -/
def onNewMessage (s : State) (message : Message) : State :=
  match s.listeners with
  | none => s
  | some l =>
    let s1 :=
      match l.selectedConversation with
      | some c =>
        if message.conversation = c._id then
          { s with messages := s.messages ++ [message] }
        else s
      | none => s
    fetchConversations s1

/-- Listener of `user-typing` (lines 56-66). -/
def onUserTyping (s : State) (data : TypingData) : State :=
  match s.listeners with
  | none => s
  | some l =>
    if l.selectedConversation.isSome ∧ data.userId ≠ l.user.id then
      let s1 := { s with typing := true, typingUser := some data.userName }
      let s2 := clearTimeout s1 s1.typingTimeoutRef
      let r := setTimeout s2 .hideIndicator 3000
      { r.1 with typingTimeoutRef := some r.2 }
    else s

/-- The updater passed to `setMessages` by the `messages-read` listener (lines 70-76). -/
def markRead (userId conversationId : String) (prev : List Message) : List Message :=
  prev.map fun msg =>
    if msg.conversation = conversationId ∧ msg.sender._id ≠ userId then
      { msg with read := true }
    else msg

/-- Listener of `messages-read` (lines 68-77). -/
def onMessagesRead (s : State) (conversationId : String) : State :=
  match s.listeners with
  | none => s
  | some l => { s with messages := markRead l.user.id conversationId s.messages }

/-- Listener of `error` (lines 79-81): `error.message || 'Socket error'`. -/
def onSocketError (s : State) (message : Option String) : State :=
  match s.listeners with
  | none => s
  | some _ =>
    match message with
    | some m => toastError s (if m = "" then "Socket error" else m)
    | none => toastError s "Socket error"

/-! ## Connection effect (lines 30-94) -/

/-- Cleanup returned by the connection effect (lines 85-92).  A timer id is
truthy when it is not `null` and not `0`. -/
def connectionCleanup (s : State) : State :=
  let s1 :=
    match s.socketRef with
    | some _ => { s with listeners := none }
    | none => s
  match s1.typingTimeoutRef with
  | some i => if i ≠ 0 then clearTimeout s1 (some i) else s1
  | none => s1

/-- Body of the connection effect (lines 31-83).  The guard `!user || !token`
treats a missing and an empty token alike. -/
def connectionEffect (s : State) : State :=
  match s.user, s.token with
  | some u, some tok =>
    if tok = "" then { s with cleanupArmed := false }
    else
      fetchConversations
        { s with socketRef := some s.nextSocket,
                 nextSocket := s.nextSocket + 1,
                 listeners := some ⟨u, s.selectedConversation⟩,
                 cleanupArmed := true }
  | _, _ => { s with cleanupArmed := false }

/-- First render and its effects: the connection effect runs; the selection
effect finds `selectedConversation` `null` and does nothing. -/
def mount (user : Option User) (token : Option String) : State :=
  connectionEffect (initial user token)

/-- A render in which `user` or `token` differs from the previous render: the
previous cleanup runs (when there is one), then the effect runs again. -/
def authChanged (s : State) (user : Option User) (token : Option String) : State :=
  let s1 := if s.cleanupArmed then connectionCleanup s else s
  connectionEffect { s1 with user := user, token := token }

/-! ## Selection effect (lines 96-108) -/

/-- Cleanup of the selection effect (lines 102-106); `c` is the
`selectedConversation` the cleanup closed over. -/
def selectionCleanup (s : State) (c : Option Conversation) : State :=
  match c with
  | some c => emit s (.leaveConversation c._id)
  | none => s

/-- Body of the selection effect (lines 97-100). -/
def selectionEffect (s : State) : State :=
  match s.selectedConversation with
  | some c => emit (fetchMessages s c._id) (.joinConversation c._id)
  | none => s

/-- The click handler `setSelectedConversation(conversation)` (line 248) with a
conversation object other than the current one, followed by the re-render: the
cleanup of the previous selection effect runs, then the effect. -/
def setSelectedConversation (s : State) (c : Conversation) : State :=
  let s1 := selectionCleanup s s.selectedConversation
  selectionEffect { s1 with selectedConversation := some c }

/-! ## Local typing (lines 172-187) -/

/-- The function `handleTyping`. -/
def handleTyping (s : State) : State :=
  match s.selectedConversation with
  | some c =>
    let s1 := emit s (.typing c._id true)
    let s2 := clearTimeout s1 s1.typingTimeoutRef
    let r := setTimeout s2 (.typingFalse c._id) 1000
    { r.1 with typingTimeoutRef := some r.2 }
  | none => s

/-- The `onChange` handler of the input (lines 345-348). -/
def onInputChange (s : State) (value : String) : State :=
  handleTyping { s with newMessage := value }

/-! ## Local send (lines 149-170) -/

/-- White space and line terminators removed by `String.prototype.trim`. -/
def isTrimmed (c : Char) : Bool :=
  c.toNat ∈ [0x09, 0x0A, 0x0B, 0x0C, 0x0D, 0x20, 0xA0, 0x1680, 0x2028, 0x2029,
    0x202F, 0x205F, 0x3000, 0xFEFF] || (0x2000 ≤ c.toNat && c.toNat ≤ 0x200A)

/-- The method `String.prototype.trim`. -/
def trim (t : String) : String :=
  String.mk ((t.data.dropWhile isTrimmed).reverse.dropWhile isTrimmed).reverse

/-- The function `handleSendMessage`.  `emitThrows` says whether the socket's
`emit` throws; reading `emit` off a `null` ref and reading `_id` off a missing
`otherParticipant` throw inside the `try` as well. -/
def handleSendMessage (s : State) (emitThrows : Bool) : State :=
  match s.selectedConversation with
  | none => s
  | some c =>
    if trim s.newMessage = "" ∨ s.sending then s
    else
      let messageText := trim s.newMessage
      let s1 := { s with sending := true, newMessage := "" }
      let caught := { toastError s1 "Failed to send message" with newMessage := messageText }
      let s2 :=
        match s1.socketRef, c.otherParticipant with
        | some _, some p =>
          if emitThrows then caught
          else emit s1 (.sendMessage c._id messageText p._id)
        | _, _ => caught
      { s2 with sending := false }

/-! ## Time labels (lines 189-203) -/

/-- The function `formatTime`.  `timestamp` is the time in milliseconds of the
date string handed in, `none` when the value is missing (`null`, `undefined`
or the empty string); `now` is the time of `new Date()`; `toLocaleDateString`
stands for the method of that name.  `Math.floor` of a quotient by a positive
number is the division of integers, which rounds down. -/
def formatTime (toLocaleDateString : Int → String) (timestamp : Option Int) (now : Int) :
    String :=
  match timestamp with
  | none => ""
  | some date =>
    let diff := now - date
    let minutes := diff / 60000
    let hours := diff / 3600000
    let days := diff / 86400000
    if minutes < 1 then "Just now"
    else if minutes < 60 then toString minutes ++ "m ago"
    else if hours < 24 then toString hours ++ "h ago"
    else if days < 7 then toString days ++ "d ago"
    else toLocaleDateString date

/-! ## Timers -/

/-- Running a timer callback at the time it is due. -/
def fire (s : State) (tm : Timer) : State :=
  match tm.action with
  | .hideIndicator => { s with now := max s.now tm.due, typing := false, typingUser := none }
  | .typingFalse conversationId =>
    emit { s with now := max s.now tm.due } (.typing conversationId false)

/-- Order in which due timers run: by due time, ties in order of creation. -/
def dueOrder (a b : Timer) : Prop := a.due ≤ b.due

instance : DecidableRel dueOrder := fun a b => inferInstanceAs (Decidable (a.due ≤ b.due))

/-- Time passes until `t` with no other event: every pending timer due by `t`
runs, in order.  No callback of the view creates or clears a timer. -/
def advance (s : State) (t : Nat) : State :=
  let due := (s.timers.filter (fun tm => tm.due ≤ t)).insertionSort dueOrder
  let s1 := due.foldl fire { s with timers := s.timers.filter (fun tm => ¬ tm.due ≤ t) }
  { s1 with now := max s1.now t }

/-! ## The view as a transition system -/

/-- Everything that can happen to a mounted view. -/
inductive Event where
  /-- Time passes until `t`. -/
  | tick (t : Nat)
  /-- A render with a changed `user` or `token`. -/
  | auth (user : Option User) (token : Option String)
  /-- A click on a conversation of the list. -/
  | select (c : Conversation)
  /-- A change of the input field. -/
  | input (value : String)
  /-- A submit of the form. -/
  | submit (emitThrows : Bool)
  | socketConnect
  | socketDisconnect
  | newMessage (message : Message)
  | userTyping (data : TypingData)
  | messagesRead (conversationId : String)
  | socketError (message : Option String)
  | conversationsOk (data : List Conversation)
  | conversationsFail
  | messagesOk (conversationId : String) (data : List Message)
  | messagesFail (conversationId : String)
  | readOk (conversationId : String)
  | readFail (conversationId : String)
  deriving Repr

/-- A response settles one pending request; a response nobody waits for cannot occur. -/
def settle (s : State) (r : Request) (k : State → State) : State :=
  if r ∈ s.inflight then k { s with inflight := s.inflight.erase r } else s

/-- One step of the view.  The listeners of `connect` and `disconnect` only log. -/
def step (s : State) : Event → State
  | .tick t => advance s t
  | .auth user token => authChanged s user token
  | .select c => setSelectedConversation s c
  | .input value => onInputChange s value
  | .submit emitThrows => handleSendMessage s emitThrows
  | .socketConnect => s
  | .socketDisconnect => s
  | .newMessage message => onNewMessage s message
  | .userTyping data => onUserTyping s data
  | .messagesRead conversationId => onMessagesRead s conversationId
  | .socketError message => onSocketError s message
  | .conversationsOk data => settle s .getConversations (fetchConversationsOk · data)
  | .conversationsFail => settle s .getConversations fetchConversationsFail
  | .messagesOk conversationId data =>
    settle s (.getMessages conversationId) (fetchMessagesOk · conversationId data)
  | .messagesFail conversationId => settle s (.getMessages conversationId) fetchMessagesFail
  | .readOk conversationId => settle s (.putRead conversationId) id
  | .readFail conversationId => settle s (.putRead conversationId) fetchMessagesFail

/-- A run of the view. -/
def run (s : State) (events : List Event) : State :=
  events.foldl step s

/-! ## Vocabulary of the properties -/

/-- Identifiers of a message list, in order. -/
def ids (l : List Message) : List String :=
  l.map (·._id)

/-- A message list is in ascending order of `createdAt`. -/
def ascending (l : List Message) : Prop :=
  (l.map (·.createdAt)).Sorted (· ≤ ·)

instance (l : List Message) : Decidable (ascending l) := by
  unfold ascending
  infer_instance

/-- Effect of one emission on the list of topics joined and not left since. -/
def subscribeStep (acc : List String) (e : Nat × Emit) : List String :=
  match e.2 with
  | .joinConversation c => acc ++ [c]
  | .leaveConversation c => acc.erase c
  | _ => acc

/-- Topics joined and not left since, after a trace of emissions. -/
def subscribed (trace : List (Nat × Emit)) : List String :=
  trace.foldl subscribeStep []

/-- Emissions that are neither a join nor a leave. -/
def Emit.silent : Emit → Bool
  | .joinConversation _ => false
  | .leaveConversation _ => false
  | _ => true

/-- Subscription invariant of a state: nothing was emitted while the socket
ref was `null`; at every point of the trace at most one topic is joined; a
topic that is joined now is the selected conversation. -/
def OneSubscription (s : State) : Prop :=
  (s.socketRef = none → s.emitted = []) ∧
  (∀ p, p <+: s.emitted → (subscribed p).length ≤ 1) ∧
  (∀ c ∈ subscribed s.emitted, ∃ a, s.selectedConversation = some a ∧ a._id = c)

/-- The state `s2` comes from `s1` without a change of selection, without
losing the socket, and with silent emissions only. -/
def Quiet (s1 s2 : State) : Prop :=
  s2.selectedConversation = s1.selectedConversation ∧
  (s2.socketRef = none → s1.socketRef = none) ∧
  ∃ es, s2.emitted = s1.emitted ++ es ∧ (∀ e ∈ es, e.2.silent = true) ∧
    (s2.socketRef = none → es = [])

/-- The keystrokes of a burst as events: time passes until the keystroke, then
the input changes. -/
def keystrokes (ks : List (Nat × String)) : List Event :=
  ks.flatMap fun k => [.tick k.1, .input k.2]

/-- Messages carried by the new-message events of a list of events, in order
of delivery. -/
def delivered : List Event → List Message
  | [] => []
  | .newMessage m :: es => m :: delivered es
  | _ :: es => delivered es

/-- Events of the chat scenario in conversation `c`: a message of `c` arrives,
the input changes, the form is submitted. -/
def scenarioEvent (c : String) : Event → Bool
  | .newMessage m => m.conversation = c
  | .input _ => true
  | .submit _ => true
  | _ => false

/-! ## Sample data -/

/-- The signed-in user of the samples. -/
def alice : User := ⟨"u1"⟩

/-- A conversation of the samples. -/
def chatA : Conversation := ⟨"A", some ⟨"u2", "Bob"⟩⟩

/-- Another conversation of the samples. -/
def chatB : Conversation := ⟨"B", some ⟨"u3", "Carol"⟩⟩

/-- A message of conversation A sent by the other participant. -/
def msgBob (id : String) (createdAt : Nat) : Message :=
  ⟨id, "A", ⟨"u2"⟩, "hi", createdAt, false⟩

/-- A message of conversation A sent by the signed-in user. -/
def msgAlice (id : String) (createdAt : Nat) : Message :=
  ⟨id, "A", ⟨"u1"⟩, "hello", createdAt, false⟩

/-- A message of conversation B sent by its other participant. -/
def msgCarol (id : String) (createdAt : Nat) : Message :=
  ⟨id, "B", ⟨"u3"⟩, "hey", createdAt, false⟩

/-- A history of five messages of conversation A, oldest first. -/
def historyA : List Message :=
  [msgBob "m1" 10, msgAlice "m2" 20, msgBob "m3" 30, msgAlice "m4" 40, msgBob "m5" 50]

/-- A view that was mounted with nothing selected and in which A was then
selected: the listeners closed over no conversation. -/
def openedA : State :=
  run (mount (some alice) (some "t1")) [.select chatA]

/-- A view whose listeners closed over conversation A: A was selected, then
the token changed and the connection effect ran again. -/
def liveA : State :=
  run openedA [.auth (some alice) (some "t2")]

end Messages

/-!
# The notification bell of `src/components/Notifications.js`

The state cells `notifications`, `unreadCount` and `showDropdown` are a
record.  Each handler awaits one request and then calls the setters with
values computed from the `notifications` and `unreadCount` of the render in
which the handler was created.  A handler is therefore a function of two
states: `render`, the state of the render that created it (what its closure
holds), and `s`, the state at the time its request settles, in which the
setters take effect.  Other handlers may have settled in between; when none
has, the two states are the same.
-/

namespace Notifications

/-- A notification of `GET /notifications`; the handlers read `_id` and `read`. -/
structure Notification where
  _id : String
  read : Bool
  deriving DecidableEq, Repr

/-- State cells of the component, and the toasts it has shown. -/
structure State where
  notifications : List Notification
  unreadCount : Int
  showDropdown : Bool
  toasts : List String
  deriving DecidableEq, Repr

/-- The count `data.filter(n => !n.read).length` (line 27). -/
def unread (l : List Notification) : Nat :=
  (l.filter fun n => !n.read).length

/-- Continuation of `fetchNotifications` when the GET resolves (lines 26-27). -/
def fetchNotificationsOk (s : State) (data : List Notification) : State :=
  { s with notifications := data, unreadCount := unread data }

/-- The function `markAsRead` (lines 42-54), from the settling of its PUT on:
both setters are called with values computed from the closure.  A failed PUT
is only logged. -/
def markAsRead (render s : State) (notificationId : String) (ok : Bool) : State :=
  if ok then
    { s with
      notifications := render.notifications.map fun n =>
        if n._id = notificationId then { n with read := true } else n,
      unreadCount := max 0 (render.unreadCount - 1) }
  else s

/-- The function `markAllAsRead` (lines 56-67), from the settling of its PUT on. -/
def markAllAsRead (render s : State) (ok : Bool) : State :=
  if ok then
    { s with
      notifications := render.notifications.map fun n => { n with read := true },
      unreadCount := 0,
      toasts := s.toasts ++ ["All notifications marked as read"] }
  else { s with toasts := s.toasts ++ ["Failed to mark all as read"] }

/-- The function `deleteNotification` (lines 69-81), from the settling of its
DELETE on.  The list is always set, from the closure; the count is set, from
the closure, only when the test `!notifications.find(...)?.read` holds, which
it does for an unread notification and also when no notification has the id;
otherwise the count stays what it is in `s`. -/
def deleteNotification (render s : State) (notificationId : String) (ok : Bool) : State :=
  if ok then
    let s1 :=
      { s with notifications := render.notifications.filter fun n => n._id != notificationId }
    let unreadOrMissing :=
      match render.notifications.find? fun n => n._id == notificationId with
      | some n => !n.read
      | none => true
    if unreadOrMissing then { s1 with unreadCount := max 0 (render.unreadCount - 1) } else s1
  else { s with toasts := s.toasts ++ ["Failed to delete notification"] }

/-- The function `handleNotificationClick` (lines 83-100), without its
navigation: the state after the click, and the id with which `markAsRead` was
called, when it was. -/
def handleNotificationClick (s : State) (notification : Notification) :
    State × Option String :=
  ({ s with showDropdown := false },
    if !notification.read then some notification._id else none)

/-- The badge is right: `unreadCount` is the number of unread notifications. -/
def Consistent (s : State) : Prop :=
  s.unreadCount = (unread s.notifications : Int)

instance (s : State) : Decidable (Consistent s) := by
  unfold Consistent
  infer_instance

/-- A sample list: one unread and one read notification. -/
def sample : State :=
  ⟨[⟨"n1", false⟩, ⟨"n2", true⟩], 1, true, []⟩

end Notifications

/-!
# The trending list of `src/pages/Feed.js`
-/

namespace Feed

/-- A post of `GET /posts`, as far as `fetchTrendingPosts` reads it: the
reactions object (its values are arrays of users, or `null`), the likes and the
comments; each of the three may be missing. -/
structure Post where
  _id : String
  reactions : Option (List (Option (List String)))
  likes : Option (List String)
  comments : Option (List String)
  deriving DecidableEq, Repr

/-- A post with its `engagement` field (line 50). -/
structure Trending where
  post : Post
  engagement : Nat
  deriving DecidableEq, Repr

/-- The `engagement` computed by the `map` callback (lines 45-50). -/
def engagement (post : Post) : Nat :=
  let reactions :=
    match post.reactions with
    | some values =>
      values.foldl (fun sum arr => sum + (match arr with | some a => a.length | none => 0)) 0
    | none => (match post.likes with | some l => l.length | none => 0)
  let comments := match post.comments with | some c => c.length | none => 0
  reactions + comments * 2

/-- Order of the comparator `(a, b) => b.engagement - a.engagement`: `a` may
stand before `b`. -/
def byEngagement (a b : Trending) : Prop := b.engagement ≤ a.engagement

instance : DecidableRel byEngagement :=
  fun a b => inferInstanceAs (Decidable (b.engagement ≤ a.engagement))

/-- The value handed to `setTrendingPosts` (lines 44-54): map, stable sort by
the comparator, first five. -/
def trendingPosts (data : List Post) : List Trending :=
  ((data.map fun post => (⟨post, engagement post⟩ : Trending)).insertionSort byEngagement).take 5

end Feed

/-!
# The completeness score of `src/components/ProfileScore.js`

Numbers are rationals: the score of the bio is a multiple of 4/5, so the total
is a multiple of 1/5 and never half-way between two integers.
-/

namespace ProfileScore

/-- The user record, as far as the score reads it; every field may be missing. -/
structure User where
  bio : Option String
  profilePicture : Option String
  experience : Option (List String)
  education : Option (List String)
  skills : Option (List String)
  deriving DecidableEq, Repr

/-- The `length` of a string: its number of UTF-16 code units. -/
def length (t : String) : Nat :=
  (t.data.map fun c => if c.toNat < 0x10000 then 1 else 2).sum

/-- A level of `getLevel`. -/
structure Level where
  name : String
  color : String
  deriving DecidableEq, Repr

/-- The function `getLevel` (lines 8-13). -/
def getLevel (percentage : Int) : Level :=
  if percentage ≥ 90 then ⟨"Expert", "#FF7A00"⟩
  else if percentage ≥ 70 then ⟨"Professional", "#0077B5"⟩
  else if percentage ≥ 50 then ⟨"Intermediate", "#00A0DC"⟩
  else ⟨"Beginner", "#999"⟩

/-- The function `Math.round`: the nearest integer, a half rounds up. -/
def round (x : ℚ) : Int := ⌊x + 1 / 2⌋

/-- The record returned by the `score` memo. -/
structure Score where
  score : ℚ
  maxScore : ℚ
  percentage : Int
  level : Level

/-- Points for the bio (lines 20-23). -/
def bioPoints (user : User) : ℚ :=
  match user.bio with
  | some bio => if length bio > 0 then min 20 ((length bio : ℚ) / 25 * 20) else 0
  | none => 0

/-- Points for the profile picture (lines 26-29); an empty string is falsy. -/
def picturePoints (user : User) : ℚ :=
  match user.profilePicture with
  | some p => if p = "" then 0 else 10
  | none => 0

/-- Points for the experience (lines 32-35). -/
def experiencePoints (user : User) : ℚ :=
  match user.experience with
  | some e => if e.length > 0 then min 30 ((e.length : ℚ) * 10) else 0
  | none => 0

/-- Points for the education (lines 38-41). -/
def educationPoints (user : User) : ℚ :=
  match user.education with
  | some e => if e.length > 0 then min 20 ((e.length : ℚ) * 10) else 0
  | none => 0

/-- Points for the skills (lines 44-47). -/
def skillsPoints (user : User) : ℚ :=
  match user.skills with
  | some k => if k.length > 0 then min 20 ((k.length : ℚ) * 2) else 0
  | none => 0

/-- The `score` memo (lines 15-56). -/
def score (user : User) : Score :=
  let totalScore : ℚ := 0
  let maxScore : ℚ := 0
  let maxScore := maxScore + 20
  let totalScore := totalScore + bioPoints user
  let maxScore := maxScore + 10
  let totalScore := totalScore + picturePoints user
  let maxScore := maxScore + 30
  let totalScore := totalScore + experiencePoints user
  let maxScore := maxScore + 20
  let totalScore := totalScore + educationPoints user
  let maxScore := maxScore + 20
  let totalScore := totalScore + skillsPoints user
  let percentage := round (totalScore / maxScore * 100)
  { score := totalScore, maxScore := maxScore, percentage := percentage,
    level := getLevel percentage }

end ProfileScore

namespace Messages

/-! ## Runs -/

/-- A run over two lists of events is the run over the first followed by the
run over the second. -/
theorem run_append (s : State) (a b : List Event) : run s (a ++ b) = run (run s a) b := by
  simp [run, List.foldl_append]

/-! ## The new-message listener -/

/-- With listeners that closed over conversation `c`, an event for `c` is
appended at the tail and a refresh of the conversation list is requested. -/
theorem onNewMessage_match (s : State) (l : Listeners) (c : Conversation) (m : Message)
    (hl : s.listeners = some l) (hc : l.selectedConversation = some c)
    (hm : m.conversation = c._id) :
    onNewMessage s m = fetchConversations { s with messages := s.messages ++ [m] } := by
  simp [onNewMessage, hl, hc, hm]

/-- A run of new-message events for the conversation the listeners closed over
appends the events in order of delivery and keeps the listeners. -/
theorem run_newMessages (evs : List Message) :
    ∀ (s : State) (l : Listeners) (c : Conversation),
      s.listeners = some l → l.selectedConversation = some c →
      (∀ m ∈ evs, m.conversation = c._id) →
      (run s (evs.map Event.newMessage)).messages = s.messages ++ evs := by
  induction evs with
  | nil => intro s l c _ _ _; simp [run]
  | cons m evs ih =>
    intro s l c hl hc hev
    have hm : m.conversation = c._id := hev m (List.mem_cons_self _ _)
    have hrest : ∀ x ∈ evs, x.conversation = c._id :=
      fun x hx => hev x (List.mem_cons_of_mem _ hx)
    have hstep : step s (.newMessage m)
        = fetchConversations { s with messages := s.messages ++ [m] } :=
      onNewMessage_match s l c m hl hc hm
    have hl2 : (fetchConversations { s with messages := s.messages ++ [m] }).listeners
        = some l := by
      simpa [fetchConversations, request] using hl
    have := ih (fetchConversations { s with messages := s.messages ++ [m] }) l c hl2 hc hrest
    simp only [run, List.map_cons, List.foldl_cons, hstep] at this ⊢
    rw [this]
    simp [fetchConversations, request]

/-- C1 (as the code has it): every inbound new-message event for the
conversation the listeners closed over adds one entry at the tail, duplicate
or not.  After a sequence of such events the list is the old list followed by
the events, and an identifier occurs as often as it did before plus once per
delivery that carried it. -/
theorem newMessage_appends_every_delivery (s : State) (l : Listeners) (c : Conversation)
    (evs : List Message) (hl : s.listeners = some l) (hc : l.selectedConversation = some c)
    (hev : ∀ m ∈ evs, m.conversation = c._id) :
    (run s (evs.map Event.newMessage)).messages = s.messages ++ evs ∧
    ∀ i, (ids (run s (evs.map Event.newMessage)).messages).count i
      = (ids s.messages).count i + (ids evs).count i := by
  have h := run_newMessages evs s l c hl hc hev
  refine ⟨h, fun i => ?_⟩
  rw [h]
  simp [ids, List.count_append]

/-- Witness of C1: the same message delivered twice to a view showing its
conversation. -/
theorem newMessage_appends_every_delivery_witness :
    (run liveA ([msgBob "m1" 10, msgBob "m1" 10].map Event.newMessage)).messages
        = liveA.messages ++ [msgBob "m1" 10, msgBob "m1" 10] ∧
    ∀ i, (ids (run liveA ([msgBob "m1" 10, msgBob "m1" 10].map Event.newMessage)).messages).count i
      = (ids liveA.messages).count i + (ids [msgBob "m1" 10, msgBob "m1" 10]).count i :=
  newMessage_appends_every_delivery liveA ⟨alice, some chatA⟩ chatA
    [msgBob "m1" 10, msgBob "m1" 10] (by decide) (by decide) (by decide)

/-- Counterexample to C1: a message delivered twice for the displayed
conversation is in the list twice. -/
theorem duplicate_delivery_duplicates :
    liveA.listeners = some ⟨alice, some chatA⟩ ∧
    (msgBob "m1" 10).conversation = chatA._id ∧
    (ids (run liveA [.newMessage (msgBob "m1" 10), .newMessage (msgBob "m1" 10)]).messages).count
      "m1" = 2 ∧
    ¬ (ids (run liveA [.newMessage (msgBob "m1" 10), .newMessage (msgBob "m1" 10)]).messages).Nodup := by
  decide

/-- Appending `t` to an ascending list of numbers keeps it ascending exactly
when the last element, if there is one, is at most `t`. -/
theorem sorted_concat_iff (f : Message → Nat) (l : List Message) (m : Message)
    (hs : (l.map f).Sorted (· ≤ ·)) :
    ((l ++ [m]).map f).Sorted (· ≤ ·) ↔ ∀ x ∈ l.getLast?, f x ≤ f m := by
  rcases List.eq_nil_or_concat l with h | ⟨L, b, h⟩
  · subst h; simp
  · rw [List.concat_eq_append] at h
    subst h
    have hb : ∀ a ∈ L, f a ≤ f b := by
      have h1 := hs
      simp only [List.map_append, List.map_cons, List.map_nil, List.Sorted,
        List.pairwise_append] at h1
      intro a ha
      exact h1.2.2 (f a) (List.mem_map_of_mem f ha) (f b) (by simp)
    have hlast : (L ++ [b]).getLast? = some b := by simp
    rw [hlast]
    simp only [List.Sorted] at hs ⊢
    rw [List.map_append, List.pairwise_append]
    constructor
    · intro h x hx
      cases hx
      exact h.2.2 (f b) (by simp) (f m) (by simp)
    · intro h
      have hbm : f b ≤ f m := h b rfl
      refine ⟨hs, by simp, ?_⟩
      intro a ha t ht
      simp only [List.map_cons, List.map_nil, List.mem_singleton] at ht
      subst ht
      rw [List.mem_map] at ha
      obtain ⟨x, hx, rfl⟩ := ha
      rcases List.mem_append.1 hx with hx | hx
      · exact le_trans (hb x hx) hbm
      · rw [List.mem_singleton] at hx
        subst hx
        exact hbm

/-- C2 (as the code has it): an inbound new-message event for the conversation
the listeners closed over is put at the tail whatever its timestamp; an
ascending list stays ascending exactly when the event is not older than the
last message of the list. -/
theorem newMessage_keeps_order_iff (s : State) (l : Listeners) (c : Conversation) (m : Message)
    (hl : s.listeners = some l) (hc : l.selectedConversation = some c)
    (hm : m.conversation = c._id) (hs : ascending s.messages) :
    (step s (.newMessage m)).messages = s.messages ++ [m] ∧
    (ascending (step s (.newMessage m)).messages ↔
      ∀ x ∈ s.messages.getLast?, x.createdAt ≤ m.createdAt) := by
  have h : (step s (.newMessage m)).messages = s.messages ++ [m] := by
    show (onNewMessage s m).messages = _
    rw [onNewMessage_match s l c m hl hc hm]
    simp [fetchConversations, request]
  refine ⟨h, ?_⟩
  rw [h]
  exact sorted_concat_iff (·.createdAt) s.messages m hs

/-- Witness of C2: a message newer than the only message of the list. -/
theorem newMessage_keeps_order_iff_witness :
    (step (run liveA [.messagesOk "A" [msgBob "m1" 10]]) (.newMessage (msgBob "m2" 20))).messages
        = (run liveA [.messagesOk "A" [msgBob "m1" 10]]).messages ++ [msgBob "m2" 20] ∧
    (ascending
        (step (run liveA [.messagesOk "A" [msgBob "m1" 10]])
          (.newMessage (msgBob "m2" 20))).messages ↔
      ∀ x ∈ (run liveA [.messagesOk "A" [msgBob "m1" 10]]).messages.getLast?,
        x.createdAt ≤ (msgBob "m2" 20).createdAt) :=
  newMessage_keeps_order_iff (run liveA [.messagesOk "A" [msgBob "m1" 10]])
    ⟨alice, some chatA⟩ chatA (msgBob "m2" 20) (by decide) (by decide) (by decide) (by decide)

/-- Counterexample to C2: the list holds one message created at 10; an event
created at 5 arrives for the displayed conversation and lands behind it. -/
theorem late_arrival_breaks_order :
    (run liveA [.messagesOk "A" [msgBob "m1" 10]]).listeners = some ⟨alice, some chatA⟩ ∧
    (msgBob "m0" 5).conversation = chatA._id ∧
    ascending (run liveA [.messagesOk "A" [msgBob "m1" 10]]).messages ∧
    ¬ ascending
      (step (run liveA [.messagesOk "A" [msgBob "m1" 10]]) (.newMessage (msgBob "m0" 5))).messages := by
  decide

/-! ## Snapshot against live events -/

/-- The new-message listener settles no request. -/
theorem onNewMessage_inflight (s : State) (m : Message) (r : Request) (h : r ∈ s.inflight) :
    r ∈ (onNewMessage s m).inflight := by
  unfold onNewMessage
  split
  · exact h
  · split
    · split <;> simp [fetchConversations, request, h]
    · simp [fetchConversations, request, h]

/-- New-message events settle no request. -/
theorem run_newMessages_inflight (evs : List Message) (r : Request) :
    ∀ s : State, r ∈ s.inflight → r ∈ (run s (evs.map Event.newMessage)).inflight := by
  induction evs with
  | nil => exact fun s h => h
  | cons m evs ih => exact fun s h => ih (onNewMessage s m) (onNewMessage_inflight s m r h)

/-- C3 (as the code has it): when the history of X resolves, the message list
becomes the snapshot, whatever the new-message events delivered while the
fetch was in flight had put there.  Each such event is in the final list as
often as the snapshot holds it: nothing is buffered and nothing is replayed. -/
theorem snapshot_replaces_live_messages (s : State) (X : String) (evs : List Message)
    (data : List Message) (h : Request.getMessages X ∈ s.inflight) :
    (run s (evs.map Event.newMessage ++ [.messagesOk X data])).messages = data ∧
    ∀ m ∈ evs, (ids (run s (evs.map Event.newMessage ++ [.messagesOk X data])).messages).count m._id
      = (ids data).count m._id := by
  have hm : (run s (evs.map Event.newMessage ++ [.messagesOk X data])).messages = data := by
    have h2 := run_newMessages_inflight evs _ s h
    rw [run_append]
    simp only [run, List.foldl_cons, List.foldl_nil, step, settle] at h2 ⊢
    simp [h2, fetchMessagesOk, request]
  exact ⟨hm, fun m _ => by rw [hm]⟩

/-- Witness of C3: the snapshot holds an older message and not the live one. -/
theorem snapshot_replaces_live_messages_witness :
    (run liveA ([msgBob "m1" 10].map Event.newMessage
      ++ [.messagesOk "A" [msgAlice "m0" 1]])).messages = [msgAlice "m0" 1] ∧
    ∀ m ∈ [msgBob "m1" 10],
      (ids (run liveA ([msgBob "m1" 10].map Event.newMessage
        ++ [.messagesOk "A" [msgAlice "m0" 1]])).messages).count m._id
      = (ids [msgAlice "m0" 1]).count m._id :=
  snapshot_replaces_live_messages liveA "A" [msgBob "m1" 10] [msgAlice "m0" 1] (by decide)

/-- Counterexample to C3: A is selected and its history is in flight; a message
for A arrives and is shown; the snapshot, taken before the message was stored,
then resolves and the message is gone. -/
theorem live_message_lost_to_snapshot :
    liveA.selectedConversation = some chatA ∧
    Request.getMessages "A" ∈ liveA.inflight ∧
    (run liveA [.newMessage (msgBob "m1" 10)]).messages = [msgBob "m1" 10] ∧
    (ids (run liveA [.newMessage (msgBob "m1" 10),
        .messagesOk "A" [msgAlice "m0" 1]]).messages).count "m1" = 0 := by
  decide

/-! ## Read receipts -/

/-- C4 (as the code has it): the messages-read listener keeps the length of the
list and, position by position, returns a message sent by the current user
unchanged, returns a message of another conversation unchanged, and sets
`read` on a message of the conversation that was sent by somebody else. -/
theorem messagesRead_flags_received_only (s : State) (l : Listeners) (cid : String)
    (hl : s.listeners = some l) :
    (step s (.messagesRead cid)).messages.length = s.messages.length ∧
    ∀ (i : Nat) (msg : Message), s.messages[i]? = some msg →
      (msg.sender._id = l.user.id → (step s (.messagesRead cid)).messages[i]? = some msg) ∧
      (msg.conversation ≠ cid → (step s (.messagesRead cid)).messages[i]? = some msg) ∧
      (msg.conversation = cid → msg.sender._id ≠ l.user.id →
        (step s (.messagesRead cid)).messages[i]? = some { msg with read := true }) := by
  have h : (step s (.messagesRead cid)).messages = markRead l.user.id cid s.messages := by
    simp [step, onMessagesRead, hl]
  rw [h]
  refine ⟨by simp [markRead], ?_⟩
  intro i msg hi
  simp only [markRead, List.getElem?_map, hi, Option.map_some']
  refine ⟨?_, ?_, ?_⟩
  · intro hu; simp [hu]
  · intro hc; simp [hc]
  · intro hc hu; simp [hc, hu]

/-- Witness of C4: a list with one message of each participant. -/
theorem messagesRead_flags_received_only_witness :
    (step (run liveA [.messagesOk "A" [msgBob "m1" 1, msgAlice "m2" 2]])
        (.messagesRead "A")).messages.length
      = (run liveA [.messagesOk "A" [msgBob "m1" 1, msgAlice "m2" 2]]).messages.length ∧
    ∀ (i : Nat) (msg : Message),
      (run liveA [.messagesOk "A" [msgBob "m1" 1, msgAlice "m2" 2]]).messages[i]? = some msg →
      (msg.sender._id = alice.id →
        (step (run liveA [.messagesOk "A" [msgBob "m1" 1, msgAlice "m2" 2]])
          (.messagesRead "A")).messages[i]? = some msg) ∧
      (msg.conversation ≠ "A" →
        (step (run liveA [.messagesOk "A" [msgBob "m1" 1, msgAlice "m2" 2]])
          (.messagesRead "A")).messages[i]? = some msg) ∧
      (msg.conversation = "A" → msg.sender._id ≠ alice.id →
        (step (run liveA [.messagesOk "A" [msgBob "m1" 1, msgAlice "m2" 2]])
          (.messagesRead "A")).messages[i]? = some { msg with read := true }) :=
  messagesRead_flags_received_only (run liveA [.messagesOk "A" [msgBob "m1" 1, msgAlice "m2" 2]])
    ⟨alice, some chatA⟩ "A" (by decide)

/-- Counterexample to C4: in a list with one message of each participant, the
event sets `read` on the message of the other participant and leaves the
message of the current user as it was. -/
theorem messagesRead_flags_the_other_side :
    (run liveA [.messagesOk "A" [msgBob "m1" 1, msgAlice "m2" 2]]).listeners
      = some ⟨alice, some chatA⟩ ∧
    (msgBob "m1" 1).sender._id ≠ alice.id ∧
    (msgAlice "m2" 2).sender._id = alice.id ∧
    (run liveA [.messagesOk "A" [msgBob "m1" 1, msgAlice "m2" 2], .messagesRead "A"]).messages
      = [{ msgBob "m1" 1 with read := true }, msgAlice "m2" 2] ∧
    (run liveA [.messagesOk "A" [msgBob "m1" 1, msgAlice "m2" 2], .messagesRead "A"]).messages
      ≠ [msgBob "m1" 1, { msgAlice "m2" 2 with read := true }] := by
  decide

/-! ## Subscriptions -/

theorem quiet_refl (s : State) : Quiet s s :=
  ⟨rfl, id, [], by simp, by simp, fun _ => rfl⟩

theorem quiet_trans {s1 s2 s3 : State} (h12 : Quiet s1 s2) (h23 : Quiet s2 s3) : Quiet s1 s3 := by
  obtain ⟨hsel, hsock, es, hes, hsil, hnil⟩ := h12
  obtain ⟨hsel2, hsock2, es2, hes2, hsil2, hnil2⟩ := h23
  refine ⟨hsel2.trans hsel, fun h => hsock (hsock2 h), es ++ es2, ?_, ?_, ?_⟩
  · rw [hes2, hes, List.append_assoc]
  · intro e he
    rcases List.mem_append.1 he with h | h
    · exact hsil e h
    · exact hsil2 e h
  · intro h
    rw [hnil2 h, hnil (hsock2 h)]
    rfl

/-- A step that leaves selection and trace alone and keeps a socket is quiet. -/
theorem quiet_of_frame (s1 s2 : State) (hsel : s2.selectedConversation = s1.selectedConversation)
    (hsock : s2.socketRef = none → s1.socketRef = none) (hem : s2.emitted = s1.emitted) :
    Quiet s1 s2 :=
  ⟨hsel, hsock, [], by simp [hem], by simp, fun _ => rfl⟩

theorem quiet_emit (s : State) (e : Emit) (he : e.silent = true) : Quiet s (emit s e) := by
  unfold emit
  cases h : s.socketRef with
  | none => exact quiet_refl s
  | some k =>
    refine ⟨rfl, ?_, [(s.now, e)], rfl, ?_, ?_⟩
    · simp [h]
    · simpa using he
    · simp [h]

theorem quiet_fire (s : State) (tm : Timer) : Quiet s (fire s tm) := by
  unfold fire
  cases tm.action with
  | hideIndicator => exact quiet_of_frame _ _ rfl id rfl
  | typingFalse c =>
    exact quiet_trans (quiet_of_frame _ { s with now := max s.now tm.due } rfl id rfl)
      (quiet_emit _ _ rfl)

theorem quiet_foldl_fire (l : List Timer) : ∀ s : State, Quiet s (l.foldl fire s) := by
  induction l with
  | nil => exact quiet_refl
  | cons tm l ih => exact fun s => quiet_trans (quiet_fire s tm) (ih _)

theorem quiet_advance (s : State) (t : Nat) : Quiet s (advance s t) := by
  unfold advance
  exact quiet_trans
    (quiet_trans
      (quiet_of_frame _ { s with timers := s.timers.filter (fun tm => ¬ tm.due ≤ t) } rfl id rfl)
      (quiet_foldl_fire _ _))
    (quiet_of_frame _ _ rfl id rfl)

theorem quiet_handleTyping (s : State) : Quiet s (handleTyping s) := by
  unfold handleTyping
  cases s.selectedConversation with
  | none => exact quiet_refl s
  | some c =>
    refine quiet_trans (quiet_emit s (.typing c._id true) rfl) (quiet_of_frame _ _ ?_ ?_ ?_)
    · simp [setTimeout, clearTimeout]; split <;> rfl
    · simp only [setTimeout, clearTimeout]; split <;> exact id
    · simp [setTimeout, clearTimeout]; split <;> rfl

theorem quiet_handleSendMessage (s : State) (emitThrows : Bool) :
    Quiet s (handleSendMessage s emitThrows) := by
  unfold handleSendMessage
  split
  · exact quiet_refl s
  · next c hc =>
    dsimp only
    split
    · exact quiet_refl s
    · split
      · split
        · exact quiet_of_frame _ _ (by simp [toastError]) (by simp [toastError]) (by simp [toastError])
        · exact quiet_trans
            (quiet_trans
              (quiet_of_frame _ { s with sending := true, newMessage := "" } rfl id rfl)
              (quiet_emit _ (.sendMessage _ _ _) rfl))
            (quiet_of_frame _ _ rfl id rfl)
      · exact quiet_of_frame _ _ (by simp [toastError]) (by simp [toastError]) (by simp [toastError])

theorem quiet_connectionCleanup (s : State) : Quiet s (connectionCleanup s) := by
  cases h1 : s.socketRef <;> cases h2 : s.typingTimeoutRef <;>
    simp only [connectionCleanup, h1, h2, clearTimeout] <;> (try split_ifs) <;>
    exact quiet_of_frame _ _ (by simp [*]) (by simp [*]) (by simp [*])

theorem quiet_connectionEffect (s : State) : Quiet s (connectionEffect s) := by
  unfold connectionEffect
  split
  · split
    · exact quiet_of_frame _ _ rfl id rfl
    · exact quiet_of_frame _ _ rfl (by simp [fetchConversations, request]) rfl
  · exact quiet_of_frame _ _ rfl id rfl

theorem quiet_authChanged (s : State) (user : Option User) (token : Option String) :
    Quiet s (authChanged s user token) := by
  unfold authChanged
  refine quiet_trans ?_ (quiet_connectionEffect _)
  split
  · exact quiet_trans (quiet_connectionCleanup s) (quiet_of_frame _ _ rfl id rfl)
  · exact quiet_of_frame _ _ rfl id rfl

theorem quiet_onNewMessage (s : State) (m : Message) : Quiet s (onNewMessage s m) := by
  unfold onNewMessage
  split
  · exact quiet_refl s
  · split
    · split <;> exact quiet_of_frame _ _ rfl id rfl
    · exact quiet_of_frame _ _ rfl id rfl

theorem quiet_onUserTyping (s : State) (d : TypingData) : Quiet s (onUserTyping s d) := by
  unfold onUserTyping
  split
  · exact quiet_refl s
  · split
    · cases h : s.typingTimeoutRef <;>
        simp only [clearTimeout, setTimeout, h] <;>
        exact quiet_of_frame _ _ (by simp [*]) (by simp [*]) (by simp [*])
    · exact quiet_refl s

theorem quiet_onMessagesRead (s : State) (c : String) : Quiet s (onMessagesRead s c) := by
  unfold onMessagesRead
  split
  · exact quiet_refl s
  · exact quiet_of_frame _ _ rfl id rfl

theorem quiet_onSocketError (s : State) (m : Option String) : Quiet s (onSocketError s m) := by
  unfold onSocketError
  split
  · exact quiet_refl s
  · split <;> exact quiet_of_frame _ _ rfl id rfl

theorem quiet_settle (s : State) (r : Request) (k : State → State)
    (hk : ∀ x, Quiet x (k x)) : Quiet s (settle s r k) := by
  unfold settle
  split
  · exact quiet_trans (quiet_of_frame _ { s with inflight := s.inflight.erase r } rfl id rfl)
      (hk _)
  · exact quiet_refl s

/-- Every step other than a click on a conversation is quiet. -/
theorem quiet_step (s : State) (e : Event) (h : ∀ c, e ≠ .select c) : Quiet s (step s e) := by
  cases e with
  | tick t => exact quiet_advance s t
  | auth user token => exact quiet_authChanged s user token
  | select c => exact absurd rfl (h c)
  | input value =>
    exact quiet_trans (quiet_of_frame _ { s with newMessage := value } rfl id rfl)
      (quiet_handleTyping _)
  | submit emitThrows => exact quiet_handleSendMessage s emitThrows
  | socketConnect => exact quiet_refl s
  | socketDisconnect => exact quiet_refl s
  | newMessage m => exact quiet_onNewMessage s m
  | userTyping d => exact quiet_onUserTyping s d
  | messagesRead c => exact quiet_onMessagesRead s c
  | socketError m => exact quiet_onSocketError s m
  | conversationsOk data =>
    exact quiet_settle s _ _ (fun x => quiet_of_frame _ _ rfl id rfl)
  | conversationsFail => exact quiet_settle s _ _ (fun x => quiet_of_frame _ _ rfl id rfl)
  | messagesOk c data => exact quiet_settle s _ _ (fun x => quiet_of_frame _ _ rfl id rfl)
  | messagesFail c => exact quiet_settle s _ _ (fun x => quiet_of_frame _ _ rfl id rfl)
  | readOk c => exact quiet_settle s _ _ (fun x => quiet_refl x)
  | readFail c => exact quiet_settle s _ _ (fun x => quiet_of_frame _ _ rfl id rfl)

theorem subscribed_concat (tr : List (Nat × Emit)) (e : Nat × Emit) :
    subscribed (tr ++ [e]) = subscribeStep (subscribed tr) e := by
  simp [subscribed, List.foldl_append]

theorem subscribed_append_silent (es : List (Nat × Emit)) (h : ∀ e ∈ es, e.2.silent = true) :
    ∀ tr, subscribed (tr ++ es) = subscribed tr := by
  induction es with
  | nil => intro tr; simp
  | cons e es ih =>
    intro tr
    have he : subscribeStep (subscribed tr) e = subscribed tr := by
      have := h e (List.mem_cons_self _ _)
      unfold subscribeStep
      cases h2 : e.2 <;> simp_all [Emit.silent]
    have := ih (fun x hx => h x (List.mem_cons_of_mem _ hx)) (tr ++ [e])
    rw [List.append_assoc, List.singleton_append] at this
    rw [this, subscribed_concat, he]

/-- The subscription invariant survives every quiet step. -/
theorem oneSubscription_quiet {s1 s2 : State} (h : OneSubscription s1) (q : Quiet s1 s2) :
    OneSubscription s2 := by
  obtain ⟨h1, h2, h3⟩ := h
  obtain ⟨hsel, hsock, es, hes, hsil, hnil⟩ := q
  refine ⟨?_, ?_, ?_⟩
  · intro hn
    rw [hes, h1 (hsock hn), hnil hn]
    rfl
  · intro p hp
    rw [hes] at hp
    rcases List.prefix_or_prefix_of_prefix hp (List.prefix_append s1.emitted es) with hp1 | hp1
    · exact h2 p hp1
    · obtain ⟨q, rfl⟩ := hp1
      have hq : q <+: es := (List.prefix_append_right_inj s1.emitted).1 hp
      rw [subscribed_append_silent q (fun e he => hsil e (hq.subset he))]
      exact h2 s1.emitted (List.prefix_refl _)
  · intro c hc
    rw [hes, subscribed_append_silent es hsil] at hc
    rw [hsel]
    exact h3 c hc

/-- What a click on a conversation does to selection, socket ref and trace. -/
theorem setSelectedConversation_trace (s : State) (c : Conversation) :
    (setSelectedConversation s c).selectedConversation = some c ∧
    (setSelectedConversation s c).socketRef = s.socketRef ∧
    (setSelectedConversation s c).emitted = s.emitted ++
      (match s.socketRef, s.selectedConversation with
        | none, _ => []
        | some _, none => [(s.now, Emit.joinConversation c._id)]
        | some _, some a =>
          [(s.now, Emit.leaveConversation a._id), (s.now, Emit.joinConversation c._id)]) := by
  cases h1 : s.socketRef <;> cases h2 : s.selectedConversation <;>
    simp [setSelectedConversation, selectionCleanup, selectionEffect, fetchMessages, request,
      emit, h1, h2]

/-- A list of at most one element, all of whose elements are `a`, is empty
once `a` is erased. -/
theorem erase_of_le_one (l : List String) (a : String) (hl : l.length ≤ 1)
    (ha : ∀ c ∈ l, c = a) : l.erase a = [] := by
  match l, hl, ha with
  | [], _, _ => rfl
  | [x], _, ha =>
    have : x = a := ha x (by simp)
    subst this
    simp

/-- The subscription invariant survives a click on a conversation. -/
theorem oneSubscription_select {s : State} (h : OneSubscription s) (c : Conversation) :
    OneSubscription (setSelectedConversation s c) := by
  obtain ⟨h1, h2, h3⟩ := h
  obtain ⟨e1, e2, e3⟩ := setSelectedConversation_trace s c
  have hfull := h2 s.emitted (List.prefix_refl _)
  cases hs : s.socketRef with
  | none =>
    have hem : (setSelectedConversation s c).emitted = [] := by
      rw [e3, hs, h1 hs]; rfl
    refine ⟨fun _ => hem, ?_, ?_⟩
    · intro p hp
      rw [hem] at hp
      rw [List.prefix_nil.1 hp]
      simp [subscribed]
    · intro x hx
      rw [hem] at hx
      simp [subscribed] at hx
  | some k =>
    cases ha : s.selectedConversation with
    | none =>
      have hnil : subscribed s.emitted = [] := by
        apply List.eq_nil_iff_forall_not_mem.2
        intro x hx
        obtain ⟨a, hsel, _⟩ := h3 x hx
        rw [ha] at hsel
        cases hsel
      rw [hs, ha] at e3
      simp only at e3
      refine ⟨fun hn => (by rw [e2, hs] at hn; cases hn), ?_, ?_⟩
      · intro p hp
        rw [e3] at hp
        rcases List.prefix_concat_iff.1 hp with rfl | hp
        · rw [subscribed_concat, hnil]; simp [subscribeStep]
        · exact h2 p hp
      · intro x hx
        rw [e3, subscribed_concat, hnil] at hx
        simp only [subscribeStep, List.nil_append, List.mem_singleton] at hx
        exact ⟨c, e1, hx.symm⟩
    | some a =>
      have hall : ∀ x ∈ subscribed s.emitted, x = a._id := by
        intro x hx
        obtain ⟨b, hsel, hb⟩ := h3 x hx
        rw [ha] at hsel
        cases hsel
        exact hb.symm
      have herase : subscribed (s.emitted ++ [(s.now, Emit.leaveConversation a._id)]) = [] := by
        rw [subscribed_concat]
        exact erase_of_le_one _ _ hfull hall
      rw [hs, ha] at e3
      simp only at e3
      have e3b : (setSelectedConversation s c).emitted
          = (s.emitted ++ [(s.now, Emit.leaveConversation a._id)])
            ++ [(s.now, Emit.joinConversation c._id)] := by
        rw [e3]; simp
      refine ⟨fun hn => (by rw [e2, hs] at hn; cases hn), ?_, ?_⟩
      · intro p hp
        rw [e3b] at hp
        rcases List.prefix_concat_iff.1 hp with rfl | hp
        · rw [subscribed_concat, herase]; simp [subscribeStep]
        · rcases List.prefix_concat_iff.1 hp with rfl | hp
          · rw [herase]; simp
          · exact h2 p hp
      · intro x hx
        rw [e3b, subscribed_concat, herase] at hx
        simp only [subscribeStep, List.nil_append, List.mem_singleton] at hx
        exact ⟨c, e1, hx.symm⟩

/-- The subscription invariant survives every step. -/
theorem oneSubscription_step {s : State} (h : OneSubscription s) (e : Event) :
    OneSubscription (step s e) := by
  by_cases hsel : ∃ c, e = .select c
  · obtain ⟨c, rfl⟩ := hsel
    exact oneSubscription_select h c
  · exact oneSubscription_quiet h (quiet_step s e (fun c hc => hsel ⟨c, hc⟩))

/-- The subscription invariant holds after mounting. -/
theorem oneSubscription_mount (user : Option User) (token : Option String) :
    OneSubscription (mount user token) := by
  have h0 : OneSubscription (initial user token) := by
    refine ⟨fun _ => rfl, ?_, ?_⟩
    · intro p hp
      have : p = [] := List.prefix_nil.1 hp
      subst this
      simp [subscribed]
    · intro c hc
      simp [subscribed, initial] at hc
  exact oneSubscription_quiet h0 (quiet_connectionEffect _)

/-- The subscription invariant holds in every reachable state. -/
theorem oneSubscription_run (events : List Event) :
    ∀ s, OneSubscription s → OneSubscription (run s events) := by
  induction events with
  | nil => exact fun s h => h
  | cons e es ih => exact fun s h => ih (step s e) (oneSubscription_step h e)

/-- C5: in every state the view reaches from mounting, by any sequence of
selections interleaved with any other events, the trace of emissions has at
every point at most one conversation joined and not left since, a conversation
so joined is the selected one, and a switch from the selected conversation
`a` to `b` emits leave-conversation for `a` and then join-conversation for `b`. -/
theorem one_subscription_at_a_time (user : Option User) (token : Option String)
    (events : List Event) :
    (∀ p, p <+: (run (mount user token) events).emitted → (subscribed p).length ≤ 1) ∧
    (∀ c ∈ subscribed (run (mount user token) events).emitted,
      ∃ a, (run (mount user token) events).selectedConversation = some a ∧ a._id = c) ∧
    (∀ a b k, (run (mount user token) events).selectedConversation = some a →
      (run (mount user token) events).socketRef = some k →
      (step (run (mount user token) events) (.select b)).emitted
        = (run (mount user token) events).emitted ++
          [((run (mount user token) events).now, Emit.leaveConversation a._id),
           ((run (mount user token) events).now, Emit.joinConversation b._id)]) := by
  obtain ⟨_, h2, h3⟩ := oneSubscription_run events _ (oneSubscription_mount user token)
  refine ⟨h2, h3, ?_⟩
  intro a b k ha hk
  have := (setSelectedConversation_trace (run (mount user token) events) b).2.2
  rw [hk, ha] at this
  exact this

/-- Witness of C5: conversation A is selected, then B. -/
theorem one_subscription_at_a_time_witness :
    (subscribed (run (mount (some alice) (some "t1")) [.select chatA, .select chatB]).emitted).length
      ≤ 1 ∧
    (run (mount (some alice) (some "t1")) [.select chatA, .select chatB]).emitted
      = [(0, Emit.joinConversation "A"), (0, Emit.leaveConversation "A"),
         (0, Emit.joinConversation "B")] :=
  ⟨(one_subscription_at_a_time (some alice) (some "t1") [.select chatA, .select chatB]).1 _
      (List.prefix_refl _),
    (one_subscription_at_a_time (some alice) (some "t1") [.select chatA]).2.2 chatA chatB 1
      (by decide) (by decide)⟩

/-! ## Local typing -/

/-- Time passing up to `t` changes only the clock when no timer is due by `t`. -/
theorem advance_idle (s : State) (t : Nat) (h : ∀ tm ∈ s.timers, t < tm.due) :
    advance s t = { s with now := max s.now t } := by
  have h1 : s.timers.filter (fun tm => decide (tm.due ≤ t)) = [] := by
    rw [List.filter_eq_nil_iff]
    intro tm htm
    have := h tm htm
    simp only [decide_eq_true_eq]
    omega
  have h2 : s.timers.filter (fun tm => decide (¬ tm.due ≤ t)) = s.timers := by
    rw [List.filter_eq_self]
    intro tm htm
    have := h tm htm
    simp only [decide_eq_true_eq]
    omega
  simpa [advance, h1, h2] using h

/-- A keystroke in a state where every pending timer is the one held by the
ref: the typing emission is recorded and the only pending timer is the new
debounce timer. -/
theorem handleTyping_fresh (s : State) (c : Conversation) (k : Nat)
    (hsel : s.selectedConversation = some c) (hsock : s.socketRef = some k)
    (href : ∀ tm ∈ s.timers, s.typingTimeoutRef = some tm.id) :
    handleTyping s = { s with
      emitted := s.emitted ++ [(s.now, Emit.typing c._id true)],
      timers := [⟨s.nextTimer, s.now + 1000, .typingFalse c._id⟩],
      nextTimer := s.nextTimer + 1,
      typingTimeoutRef := some s.nextTimer } := by
  cases hr : s.typingTimeoutRef with
  | none =>
    have : s.timers = [] := by
      apply List.eq_nil_iff_forall_not_mem.2
      intro tm htm
      have := href tm htm
      rw [hr] at this
      cases this
    simp [handleTyping, hsel, emit, hsock, clearTimeout, setTimeout, hr, this]
  | some i =>
    have : s.timers.filter (fun tm => tm.id != i) = [] := by
      rw [List.filter_eq_nil_iff]
      intro tm htm
      have := href tm htm
      rw [hr] at this
      cases this
      simp
    simp [handleTyping, hsel, emit, hsock, clearTimeout, setTimeout, hr, this]

/-- State right after a keystroke at time `t` in conversation `c`: the only
pending timer is the debounce timer of that keystroke, and the ref holds it. -/
theorem keystroke_step (s : State) (c : Conversation) (k t : Nat) (v : String)
    (hsel : s.selectedConversation = some c) (hsock : s.socketRef = some k)
    (hnow : s.now ≤ t)
    (href : ∀ tm ∈ s.timers, s.typingTimeoutRef = some tm.id ∧ t < tm.due) :
    (run s [.tick t, .input v]).selectedConversation = some c ∧
    (run s [.tick t, .input v]).socketRef = some k ∧
    (run s [.tick t, .input v]).now = t ∧
    (run s [.tick t, .input v]).emitted = s.emitted ++ [(t, Emit.typing c._id true)] ∧
    ∃ i, (run s [.tick t, .input v]).timers = [⟨i, t + 1000, .typingFalse c._id⟩] ∧
      (run s [.tick t, .input v]).typingTimeoutRef = some i := by
  have h1 : advance s t = { s with now := max s.now t } :=
    advance_idle s t (fun tm htm => (href tm htm).2)
  have h2 : run s [.tick t, .input v]
      = handleTyping { s with now := max s.now t, newMessage := v } := by
    simp [run, step, onInputChange, h1]
  have h3 := handleTyping_fresh { s with now := max s.now t, newMessage := v } c k hsel hsock
    (fun tm htm => (href tm htm).1)
  have hmax : max s.now t = t := max_eq_right hnow
  rw [h2, h3]
  simp [hmax, hsel, hsock]

/-- A burst of keystrokes, each less than a second after the one before: one
typing emission per keystroke, and at the end the only pending timer is the
debounce timer of the last keystroke. -/
theorem burst_trace (c : Conversation) (k : Nat) (ks : List (Nat × String)) :
    ∀ (s : State) (k0 : Nat × String),
      s.selectedConversation = some c → s.socketRef = some k → s.now ≤ k0.1 →
      (∀ tm ∈ s.timers, s.typingTimeoutRef = some tm.id ∧ k0.1 < tm.due) →
      (k0 :: ks).Chain' (fun a b => a.1 ≤ b.1 ∧ b.1 < a.1 + 1000) →
      (run s (keystrokes (k0 :: ks))).socketRef = some k ∧
      (run s (keystrokes (k0 :: ks))).now = ((k0 :: ks).getLast (List.cons_ne_nil _ _)).1 ∧
      (run s (keystrokes (k0 :: ks))).emitted
        = s.emitted ++ (k0 :: ks).map (fun x => (x.1, Emit.typing c._id true)) ∧
      ∃ i, (run s (keystrokes (k0 :: ks))).timers
          = [⟨i, ((k0 :: ks).getLast (List.cons_ne_nil _ _)).1 + 1000, .typingFalse c._id⟩] ∧
        (run s (keystrokes (k0 :: ks))).typingTimeoutRef = some i ∧
        (run s (keystrokes (k0 :: ks))).selectedConversation = some c := by
  induction ks with
  | nil =>
    intro s k0 hsel hsock hnow href _
    obtain ⟨a1, a2, a3, a4, i, a5, a6⟩ := keystroke_step s c k k0.1 k0.2 hsel hsock hnow href
    have hk : keystrokes [k0] = [.tick k0.1, .input k0.2] := by simp [keystrokes]
    rw [hk]
    exact ⟨a2, by simpa using a3, by simpa using a4, i, by simpa using a5, a6, a1⟩
  | cons k1 ks ih =>
    intro s k0 hsel hsock hnow href hchain
    obtain ⟨a1, a2, a3, a4, i, a5, a6⟩ := keystroke_step s c k k0.1 k0.2 hsel hsock hnow href
    have hk : keystrokes (k0 :: k1 :: ks) = [.tick k0.1, .input k0.2] ++ keystrokes (k1 :: ks) := by
      simp [keystrokes]
    rw [List.chain'_cons] at hchain
    obtain ⟨⟨h01, h10⟩, hrest⟩ := hchain
    have href2 : ∀ tm ∈ (run s [.tick k0.1, .input k0.2]).timers,
        (run s [.tick k0.1, .input k0.2]).typingTimeoutRef = some tm.id ∧ k1.1 < tm.due := by
      intro tm htm
      rw [a5, List.mem_singleton] at htm
      subst htm
      exact ⟨a6, h10⟩
    obtain ⟨b2, b3, b4, j, b5, b6, b1⟩ :=
      ih (run s [.tick k0.1, .input k0.2]) k1 a1 a2 (by rw [a3]; exact h01) href2 hrest
    rw [hk, run_append]
    refine ⟨b2, ?_, ?_, j, ?_, b6, b1⟩
    · rw [b3, List.getLast_cons (List.cons_ne_nil _ _)]
    · rw [b4, a4]; simp
    · rw [b5, List.getLast_cons (List.cons_ne_nil _ _)]

/-- When the debounce timer is the only pending timer, letting the time pass
beyond its due time emits the deferred typing event once. -/
theorem advance_debounce (s : State) (c : String) (k i t T : Nat)
    (hsock : s.socketRef = some k) (hnow : s.now ≤ t + 1000)
    (htm : s.timers = [⟨i, t + 1000, .typingFalse c⟩]) (hT : t + 1000 ≤ T) :
    (advance s T).emitted = s.emitted ++ [(t + 1000, Emit.typing c false)] ∧
    (advance s T).timers = [] := by
  have hmax : max s.now (t + 1000) = t + 1000 := max_eq_right hnow
  simp [advance, htm, hT, fire, emit, hsock, hmax]

/-- C6: in a view with a selected conversation and a socket, in which every
pending timer is the one held by the ref and is not due before the first
keystroke, a burst of keystrokes with less than 1000 ms between consecutive
ones, followed by silence until `T`, emits typing true once per keystroke, at
the time of the keystroke, and typing false exactly once, 1000 ms after the
last keystroke; no timer is left pending. -/
theorem local_typing_debounce (s : State) (c : Conversation) (k : Nat) (k0 : Nat × String)
    (ks : List (Nat × String)) (T : Nat)
    (hsel : s.selectedConversation = some c) (hsock : s.socketRef = some k)
    (hnow : s.now ≤ k0.1)
    (href : ∀ tm ∈ s.timers, s.typingTimeoutRef = some tm.id ∧ k0.1 < tm.due)
    (hburst : (k0 :: ks).Chain' (fun a b => a.1 ≤ b.1 ∧ b.1 < a.1 + 1000))
    (hT : ((k0 :: ks).getLast (List.cons_ne_nil _ _)).1 + 1000 ≤ T) :
    (run s (keystrokes (k0 :: ks) ++ [.tick T])).emitted
      = s.emitted ++ (k0 :: ks).map (fun x => (x.1, Emit.typing c._id true))
        ++ [(((k0 :: ks).getLast (List.cons_ne_nil _ _)).1 + 1000, Emit.typing c._id false)] ∧
    (run s (keystrokes (k0 :: ks) ++ [.tick T])).timers = [] := by
  obtain ⟨b2, b3, b4, j, b5, _, _⟩ := burst_trace c k ks s k0 hsel hsock hnow href hburst
  have h := advance_debounce (run s (keystrokes (k0 :: ks))) c._id k j
    ((k0 :: ks).getLast (List.cons_ne_nil _ _)).1 T b2 (by rw [b3]; omega) b5 hT
  rw [run_append]
  have hrun : run (run s (keystrokes (k0 :: ks))) [.tick T]
      = advance (run s (keystrokes (k0 :: ks))) T := rfl
  rw [hrun, h.1, h.2, b4]
  exact ⟨rfl, rfl⟩

/-- Witness of C6: keystrokes at 0, 200 and 400 ms in conversation A give one
typing false, at 1400 ms. -/
theorem local_typing_debounce_witness :
    (run openedA (keystrokes [(0, "a"), (200, "ab"), (400, "abc")] ++ [.tick 1400])).emitted
      = openedA.emitted
        ++ [(0, Emit.typing "A" true), (200, Emit.typing "A" true), (400, Emit.typing "A" true)]
        ++ [(1400, Emit.typing "A" false)] ∧
    (run openedA (keystrokes [(0, "a"), (200, "ab"), (400, "abc")] ++ [.tick 1400])).timers = [] :=
  local_typing_debounce openedA chatA 1 (0, "a") [(200, "ab"), (400, "abc")] 1400
    (by decide) (by decide) (by decide) (by decide) (by simp) (by decide)

/-! ## Remote typing indicator -/

/-- A timer callback never shows the indicator. -/
theorem fire_keeps_hidden (s : State) (tm : Timer)
    (h : s.typing = false ∧ s.typingUser = none) :
    (fire s tm).typing = false ∧ (fire s tm).typingUser = none := by
  unfold fire
  cases tm.action with
  | hideIndicator => exact ⟨rfl, rfl⟩
  | typingFalse c =>
    unfold emit
    dsimp only
    split <;> exact h

theorem foldl_fire_keeps_hidden (l : List Timer) :
    ∀ s : State, s.typing = false ∧ s.typingUser = none →
      (l.foldl fire s).typing = false ∧ (l.foldl fire s).typingUser = none := by
  induction l with
  | nil => exact fun s h => h
  | cons tm l ih => exact fun s h => ih _ (fire_keeps_hidden s tm h)

/-- Running a list of callbacks that contains an auto-hide leaves the indicator hidden. -/
theorem foldl_fire_hides (l : List Timer) (tm : Timer) (hmem : tm ∈ l)
    (hact : tm.action = .hideIndicator) :
    ∀ s : State, (l.foldl fire s).typing = false ∧ (l.foldl fire s).typingUser = none := by
  induction l with
  | nil => cases hmem
  | cons x l ih =>
    intro s
    rcases List.mem_cons.1 hmem with rfl | hin
    · refine foldl_fire_keeps_hidden l (fire s tm) ?_
      unfold fire
      rw [hact]
      exact ⟨rfl, rfl⟩
    · exact ih hin _

/-- Letting the time pass beyond the due time of a pending auto-hide hides the indicator. -/
theorem advance_hides (s : State) (tm : Timer) (T : Nat) (hmem : tm ∈ s.timers)
    (hact : tm.action = .hideIndicator) (hdue : tm.due ≤ T) :
    (advance s T).typing = false ∧ (advance s T).typingUser = none := by
  unfold advance
  dsimp only
  apply foldl_fire_hides _ tm _ hact
  rw [(List.perm_insertionSort dueOrder _).mem_iff, List.mem_filter]
  exact ⟨hmem, by simpa using hdue⟩

/-- C7: when a user-typing event of another user reaches listeners that closed
over a conversation, the indicator is shown with the name of that user, and if
nothing else happens it is hidden (typing false, typingUser null) once 3000 ms
have passed. -/
theorem remote_typing_auto_hides (s : State) (l : Listeners) (d : TypingData) (T : Nat)
    (hl : s.listeners = some l) (hsel : l.selectedConversation.isSome = true)
    (huser : d.userId ≠ l.user.id) (hT : s.now + 3000 ≤ T) :
    (step s (.userTyping d)).typing = true ∧
    (step s (.userTyping d)).typingUser = some d.userName ∧
    (step s (.userTyping d)).now = s.now ∧
    (run s [.userTyping d, .tick T]).typing = false ∧
    (run s [.userTyping d, .tick T]).typingUser = none := by
  have hstep : step s (.userTyping d) = onUserTyping s d := rfl
  have hmem : (⟨s.nextTimer, s.now + 3000, .hideIndicator⟩ : Timer) ∈ (onUserTyping s d).timers := by
    cases hr : s.typingTimeoutRef <;>
      simp [onUserTyping, hl, hsel, huser, clearTimeout, setTimeout, hr]
  have hrun : run s [.userTyping d, .tick T] = advance (onUserTyping s d) T := rfl
  rw [hstep, hrun]
  refine ⟨?_, ?_, ?_, advance_hides _ _ T hmem rfl hT⟩
  · cases hr : s.typingTimeoutRef <;>
      simp [onUserTyping, hl, hsel, huser, clearTimeout, setTimeout, hr]
  · cases hr : s.typingTimeoutRef <;>
      simp [onUserTyping, hl, hsel, huser, clearTimeout, setTimeout, hr]
  · cases hr : s.typingTimeoutRef <;>
      simp [onUserTyping, hl, hsel, huser, clearTimeout, setTimeout, hr]

/-- Witness of C7: Bob types in conversation A at time 0; at 3000 ms the
indicator is gone. -/
theorem remote_typing_auto_hides_witness :
    (step liveA (.userTyping ⟨"u2", "Bob", "A"⟩)).typing = true ∧
    (step liveA (.userTyping ⟨"u2", "Bob", "A"⟩)).typingUser = some "Bob" ∧
    (step liveA (.userTyping ⟨"u2", "Bob", "A"⟩)).now = liveA.now ∧
    (run liveA [.userTyping ⟨"u2", "Bob", "A"⟩, .tick 3000]).typing = false ∧
    (run liveA [.userTyping ⟨"u2", "Bob", "A"⟩, .tick 3000]).typingUser = none :=
  remote_typing_auto_hides liveA ⟨alice, some chatA⟩ ⟨"u2", "Bob", "A"⟩ 3000
    (by decide) (by decide) (by decide) (by decide)

/-- Failing input of C8: Bob types at time 0 and the indicator is shown; the
user presses a key at 500 ms, which clears the timer held by the shared ref,
the auto-hide; at 3000 ms, and for as long as nothing else happens, the
indicator is still shown. -/
theorem keystroke_cancels_auto_hide :
    (run liveA [.userTyping ⟨"u2", "Bob", "A"⟩]).typing = true ∧
    (run liveA [.userTyping ⟨"u2", "Bob", "A"⟩]).timers = [⟨1, 3000, .hideIndicator⟩] ∧
    (run liveA [.userTyping ⟨"u2", "Bob", "A"⟩, .tick 500, .input "h"]).timers
      = [⟨2, 1500, .typingFalse "A"⟩] ∧
    (run liveA [.userTyping ⟨"u2", "Bob", "A"⟩, .tick 500, .input "h", .tick 3000]).now = 3000 ∧
    (run liveA [.userTyping ⟨"u2", "Bob", "A"⟩, .tick 500, .input "h", .tick 3000]).typing = true ∧
    (run liveA [.userTyping ⟨"u2", "Bob", "A"⟩, .tick 500, .input "h", .tick 3000]).typingUser
      = some "Bob" ∧
    (run liveA [.userTyping ⟨"u2", "Bob", "A"⟩, .tick 500, .input "h", .tick 3000]).timers = [] := by
  decide

/-- Failing input of C9: the user presses a key at time 0, which schedules the
deferred typing false for 1000 ms; Bob's user-typing event arrives at 200 ms
and clears the timer held by the shared ref, the debounce timer; typing false
is never emitted. -/
theorem remote_typing_cancels_debounce :
    (run liveA [.input "h"]).timers = [⟨1, 1000, .typingFalse "A"⟩] ∧
    (run liveA [.input "h", .tick 200, .userTyping ⟨"u2", "Bob", "A"⟩]).timers
      = [⟨2, 3200, .hideIndicator⟩] ∧
    (run liveA [.input "h", .tick 200, .userTyping ⟨"u2", "Bob", "A"⟩, .tick 5000]).emitted
      = [(0, Emit.joinConversation "A"), (0, Emit.typing "A" true)] ∧
    (run liveA [.input "h", .tick 200, .userTyping ⟨"u2", "Bob", "A"⟩, .tick 5000]).timers = [] := by
  decide

/-- Failing input of C10: the view is mounted, then conversation A is selected
and its empty history arrives; a new-message event for A is not appended,
because the listener still tests the `null` selection it closed over; only
the refresh of the conversation list is requested. -/
theorem selected_conversation_message_dropped :
    (run openedA [.messagesOk "A" []]).selectedConversation = some chatA ∧
    (msgBob "m1" 10).conversation = chatA._id ∧
    (run openedA [.messagesOk "A" [], .newMessage (msgBob "m1" 10)]).messages = [] ∧
    (run openedA [.messagesOk "A" [], .newMessage (msgBob "m1" 10)]).requests
      = (run openedA [.messagesOk "A" []]).requests ++ [.getConversations] := by
  decide

/-! ## Frame of the steps -/

/-- A quantity that no timer callback changes is not changed by running a list
of callbacks. -/
theorem foldl_fire_frame {α : Type} (f : State → α) (hfire : ∀ s tm, f (fire s tm) = f s)
    (l : List Timer) : ∀ s, f (l.foldl fire s) = f s := by
  induction l with
  | nil => exact fun s => rfl
  | cons tm l ih => exact fun s => (ih (fire s tm)).trans (hfire s tm)

/-- A quantity that depends neither on the clock nor on the pending timers and
that no timer callback changes is not changed by the passing of time. -/
theorem advance_frame {α : Type} (f : State → α) (hfire : ∀ s tm, f (fire s tm) = f s)
    (htimers : ∀ (s : State) x, f { s with timers := x } = f s)
    (hnow : ∀ (s : State) x, f { s with now := x } = f s) (s : State) (t : Nat) :
    f (advance s t) = f s := by
  unfold advance
  dsimp only
  rw [hnow, foldl_fire_frame f hfire, htimers]

theorem fire_requests (s : State) (tm : Timer) : (fire s tm).requests = s.requests := by
  unfold fire emit
  cases tm.action
  · rfl
  · dsimp only
    split <;> rfl

theorem fire_messages (s : State) (tm : Timer) : (fire s tm).messages = s.messages := by
  unfold fire emit
  cases tm.action
  · rfl
  · dsimp only
    split <;> rfl

theorem advance_requests (s : State) (t : Nat) : (advance s t).requests = s.requests :=
  advance_frame (·.requests) fire_requests (fun _ _ => rfl) (fun _ _ => rfl) s t

theorem advance_messages (s : State) (t : Nat) : (advance s t).messages = s.messages :=
  advance_frame (·.messages) fire_messages (fun _ _ => rfl) (fun _ _ => rfl) s t

/-! ## New-message events for another conversation -/

/-- Against the selection the listeners closed over, the new-message listener
keeps the list: when that selection is `null` or has another id than the
event, the list is unchanged and one refresh is requested. -/
theorem onNewMessage_other (s : State) (l : Listeners) (m : Message)
    (hl : s.listeners = some l)
    (hc : ∀ c, l.selectedConversation = some c → m.conversation ≠ c._id) :
    (step s (.newMessage m)).messages = s.messages ∧
    (step s (.newMessage m)).requests = s.requests ++ [.getConversations] := by
  cases hsel : l.selectedConversation with
  | none => simp [step, onNewMessage, hl, hsel, fetchConversations, request]
  | some c =>
    have := hc c hsel
    simp [step, onNewMessage, hl, hsel, this, fetchConversations, request]

/-- Failing input of C11: the listeners closed over conversation A; the user
switches to B and B's history arrives; a new-message event for A, which is not
the selected conversation, is appended to the list that shows B. -/
theorem other_conversation_message_appended :
    (run liveA [.select chatB, .messagesOk "B" [msgCarol "b1" 5]]).selectedConversation
      = some chatB ∧
    (run liveA [.select chatB, .messagesOk "B" [msgCarol "b1" 5]]).messages
      = [msgCarol "b1" 5] ∧
    (msgBob "m1" 10).conversation ≠ chatB._id ∧
    (run liveA [.select chatB, .messagesOk "B" [msgCarol "b1" 5],
        .newMessage (msgBob "m1" 10)]).messages
      = [msgCarol "b1" 5, msgBob "m1" 10] := by
  decide

/-! ## Late snapshots -/

theorem setSelectedConversation_inflight (s : State) (c : Conversation) :
    (setSelectedConversation s c).inflight = s.inflight ++ [.getMessages c._id] ∧
    (setSelectedConversation s c).requests = s.requests ++ [.getMessages c._id] ∧
    (setSelectedConversation s c).messages = s.messages := by
  cases h1 : s.socketRef <;> cases h2 : s.selectedConversation <;>
    simp [setSelectedConversation, selectionCleanup, selectionEffect, fetchMessages, request,
      emit, h1, h2]

/-- C12 (as the code has it): a late snapshot is applied.  When the history of
A is still in flight and the user selects another conversation `b`, the
response for A, once it resolves, replaces the message list by the history of A
while `b` is the selected conversation, and the mark-read request for A is
sent. -/
theorem late_snapshot_replaces_messages (s : State) (A : String) (b : Conversation)
    (data : List Message) (h : Request.getMessages A ∈ s.inflight) :
    (run s [.select b, .messagesOk A data]).selectedConversation = some b ∧
    (run s [.select b, .messagesOk A data]).messages = data ∧
    (run s [.select b, .messagesOk A data]).requests
      = s.requests ++ [.getMessages b._id, .putRead A] := by
  obtain ⟨e1, _, _⟩ := setSelectedConversation_trace s b
  obtain ⟨i1, i2, _⟩ := setSelectedConversation_inflight s b
  have hin : Request.getMessages A ∈ (setSelectedConversation s b).inflight := by
    rw [i1]; exact List.mem_append_left _ h
  have hrun : run s [.select b, .messagesOk A data]
      = settle (setSelectedConversation s b) (.getMessages A) (fetchMessagesOk · A data) := rfl
  rw [hrun]
  simp only [settle, hin, if_true]
  refine ⟨?_, ?_, ?_⟩
  · simpa [fetchMessagesOk, request] using e1
  · simp [fetchMessagesOk, request]
  · simp [fetchMessagesOk, request, i2]

/-- Witness of C12: A is opened, then B; the history of A resolves last. -/
theorem late_snapshot_replaces_messages_witness :
    (run openedA [.select chatB, .messagesOk "A" historyA]).selectedConversation = some chatB ∧
    (run openedA [.select chatB, .messagesOk "A" historyA]).messages = historyA ∧
    (run openedA [.select chatB, .messagesOk "A" historyA]).requests
      = openedA.requests ++ [.getMessages chatB._id, .putRead "A"] :=
  late_snapshot_replaces_messages openedA "A" chatB historyA (by decide)

/-- Counterexample to C12: the history of A is in flight when the user
switches to B; B's history arrives, then A's, and the list shows the history
of A while B is selected. -/
theorem late_snapshot_applied :
    openedA.selectedConversation = some chatA ∧
    Request.getMessages "A" ∈ openedA.inflight ∧
    (run openedA [.select chatB, .messagesOk "B" [msgCarol "b1" 5],
        .messagesOk "A" historyA]).selectedConversation = some chatB ∧
    (run openedA [.select chatB, .messagesOk "B" [msgCarol "b1" 5],
        .messagesOk "A" historyA]).messages = historyA := by
  decide

/-! ## Mark-read after the history -/

theorem handleTyping_requests (s : State) : (handleTyping s).requests = s.requests := by
  cases h1 : s.socketRef <;> cases h2 : s.selectedConversation <;>
    cases h3 : s.typingTimeoutRef <;>
    simp [handleTyping, emit, clearTimeout, setTimeout, h1, h2, h3]

theorem handleSendMessage_requests (s : State) (b : Bool) :
    (handleSendMessage s b).requests = s.requests := by
  unfold handleSendMessage
  split
  · rfl
  · dsimp only
    split
    · rfl
    · split
      · split
        · rfl
        · unfold emit
          dsimp only
          split <;> rfl
      · rfl

theorem connectionCleanup_requests (s : State) : (connectionCleanup s).requests = s.requests := by
  cases h1 : s.socketRef <;> cases h2 : s.typingTimeoutRef <;>
    simp only [connectionCleanup, h1, h2, clearTimeout] <;> (try split_ifs) <;> rfl

theorem onUserTyping_requests (s : State) (d : TypingData) :
    (onUserTyping s d).requests = s.requests := by
  unfold onUserTyping
  split
  · rfl
  · split
    · cases h : s.typingTimeoutRef <;> simp [clearTimeout, setTimeout, h]
    · rfl

/-- Every step extends the trace of requests, and extends it by a mark-read
request for `c` only when the step is the arrival of an awaited history of `c`. -/
theorem step_requests (s : State) (e : Event) :
    ∃ rs, (step s e).requests = s.requests ++ rs ∧
      ∀ c, Request.putRead c ∈ rs →
        ∃ data, e = .messagesOk c data ∧ Request.getMessages c ∈ s.inflight := by
  cases e with
  | tick t => exact ⟨[], by simp [step, advance_requests], by simp⟩
  | auth user token =>
    simp only [step, authChanged]
    by_cases ha : s.cleanupArmed = true
    · simp only [ha, if_true]
      unfold connectionEffect
      split
      · split
        · exact ⟨[], by simp [connectionCleanup_requests], by simp⟩
        · exact ⟨[.getConversations],
            by simp [fetchConversations, request, connectionCleanup_requests], by simp⟩
      · exact ⟨[], by simp [connectionCleanup_requests], by simp⟩
    · simp only [ha]
      unfold connectionEffect
      split
      · split
        · exact ⟨[], by simp, by simp⟩
        · exact ⟨[.getConversations], by simp [fetchConversations, request], by simp⟩
      · exact ⟨[], by simp, by simp⟩
  | select c =>
    exact ⟨[.getMessages c._id], (setSelectedConversation_inflight s c).2.1, by simp⟩
  | input value =>
    exact ⟨[], by simp [step, onInputChange, handleTyping_requests], by simp⟩
  | submit b => exact ⟨[], by simp [step, handleSendMessage_requests], by simp⟩
  | socketConnect => exact ⟨[], by simp [step], by simp⟩
  | socketDisconnect => exact ⟨[], by simp [step], by simp⟩
  | newMessage m =>
    simp only [step, onNewMessage]
    split
    · exact ⟨[], by simp, by simp⟩
    · split
      · split <;> exact ⟨[.getConversations], by simp [fetchConversations, request], by simp⟩
      · exact ⟨[.getConversations], by simp [fetchConversations, request], by simp⟩
  | userTyping d => exact ⟨[], by simp [step, onUserTyping_requests], by simp⟩
  | messagesRead c =>
    simp only [step, onMessagesRead]
    split <;> exact ⟨[], by simp, by simp⟩
  | socketError m =>
    simp only [step, onSocketError]
    split
    · exact ⟨[], by simp, by simp⟩
    · split <;> exact ⟨[], by simp [toastError], by simp⟩
  | conversationsOk data =>
    simp only [step, settle]
    split <;> exact ⟨[], by simp [fetchConversationsOk], by simp⟩
  | conversationsFail =>
    simp only [step, settle]
    split <;> exact ⟨[], by simp [fetchConversationsFail, toastError], by simp⟩
  | messagesOk c data =>
    simp only [step, settle]
    split
    · next h =>
      refine ⟨[.putRead c], by simp [fetchMessagesOk, request], ?_⟩
      intro c2 hc2
      simp only [List.mem_singleton, Request.putRead.injEq] at hc2
      subst hc2
      exact ⟨data, rfl, h⟩
    · exact ⟨[], by simp, by simp⟩
  | messagesFail c =>
    simp only [step, settle]
    split <;> exact ⟨[], by simp [fetchMessagesFail, toastError], by simp⟩
  | readOk c =>
    simp only [step, settle]
    split <;> exact ⟨[], by simp, by simp⟩
  | readFail c =>
    simp only [step, settle]
    split <;> exact ⟨[], by simp [fetchMessagesFail, toastError], by simp⟩

/-- C13: `fetchMessages` sends the history request alone; the mark-read
request for `c` is added to the trace of requests by the arrival of the
awaited history of `c`, after the history was stored in the message list, and
by no other step of the view; when the history request fails, nothing is sent
and the list is unchanged. -/
theorem mark_read_follows_history (s : State) (c : String) (data : List Message) :
    (fetchMessages s c).requests = s.requests ++ [.getMessages c] ∧
    (Request.getMessages c ∈ s.inflight →
      (step s (.messagesOk c data)).messages = data ∧
      (step s (.messagesOk c data)).requests = s.requests ++ [.putRead c]) ∧
    ((step s (.messagesFail c)).requests = s.requests ∧
      (step s (.messagesFail c)).messages = s.messages) ∧
    (∀ e, ∃ rs, (step s e).requests = s.requests ++ rs ∧
      (Request.putRead c ∈ rs →
        ∃ d, e = .messagesOk c d ∧ Request.getMessages c ∈ s.inflight)) := by
  refine ⟨by simp [fetchMessages, request], ?_, ?_, ?_⟩
  · intro h
    simp [step, settle, h, fetchMessagesOk, request]
  · simp only [step, settle]
    split <;> simp [fetchMessagesFail, toastError]
  · intro e
    obtain ⟨rs, h1, h2⟩ := step_requests s e
    exact ⟨rs, h1, h2 c⟩

/-- Witness of C13: the history of A arrives in a view that awaits it. -/
theorem mark_read_follows_history_witness :
    (step openedA (.messagesOk "A" historyA)).messages = historyA ∧
    (step openedA (.messagesOk "A" historyA)).requests = openedA.requests ++ [.putRead "A"] :=
  (mark_read_follows_history openedA "A" historyA).2.1 (by decide)

/-! ## Local send -/

theorem handleTyping_frame (s : State) :
    (handleTyping s).messages = s.messages ∧ (handleTyping s).sending = s.sending ∧
    (handleTyping s).conversations = s.conversations ∧
    (handleTyping s).listeners = s.listeners := by
  cases h1 : s.socketRef <;> cases h2 : s.selectedConversation <;>
    cases h3 : s.typingTimeoutRef <;>
    simp [handleTyping, emit, clearTimeout, setTimeout, h1, h2, h3]

/-- The send handler changes neither the lists nor the listeners, and leaves
the `sending` flag as it found it. -/
theorem handleSendMessage_frame (s : State) (b : Bool) :
    (handleSendMessage s b).messages = s.messages ∧
    (handleSendMessage s b).sending = s.sending ∧
    (handleSendMessage s b).conversations = s.conversations ∧
    (handleSendMessage s b).listeners = s.listeners := by
  unfold handleSendMessage
  split
  · exact ⟨rfl, rfl, rfl, rfl⟩
  · dsimp only
    split
    · exact ⟨rfl, rfl, rfl, rfl⟩
    · next hg =>
      have hs : s.sending = false := by
        cases h : s.sending
        · rfl
        · exact absurd (Or.inr h) hg
      split
      · split
        · exact ⟨rfl, hs.symm, rfl, rfl⟩
        · unfold emit
          dsimp only
          split <;> exact ⟨rfl, hs.symm, rfl, rfl⟩
      · exact ⟨rfl, hs.symm, rfl, rfl⟩

theorem connectionCleanup_frame (s : State) :
    (connectionCleanup s).messages = s.messages ∧ (connectionCleanup s).sending = s.sending ∧
    (connectionCleanup s).conversations = s.conversations := by
  cases h1 : s.socketRef <;> cases h2 : s.typingTimeoutRef <;>
    simp only [connectionCleanup, h1, h2, clearTimeout] <;> (try split_ifs) <;>
    first | exact ⟨rfl, rfl, rfl⟩ | simp

theorem connectionEffect_frame (s : State) :
    (connectionEffect s).messages = s.messages ∧ (connectionEffect s).sending = s.sending ∧
    (connectionEffect s).conversations = s.conversations := by
  unfold connectionEffect
  split
  · split <;> exact ⟨rfl, rfl, rfl⟩
  · exact ⟨rfl, rfl, rfl⟩

theorem authChanged_frame (s : State) (user : Option User) (token : Option String) :
    (authChanged s user token).messages = s.messages ∧
    (authChanged s user token).sending = s.sending ∧
    (authChanged s user token).conversations = s.conversations := by
  unfold authChanged
  dsimp only
  obtain ⟨a1, a2, a3⟩ := connectionCleanup_frame s
  split
  · obtain ⟨b1, b2, b3⟩ :=
      connectionEffect_frame { connectionCleanup s with user := user, token := token }
    exact ⟨b1.trans a1, b2.trans a2, b3.trans a3⟩
  · exact connectionEffect_frame { s with user := user, token := token }

theorem onUserTyping_frame (s : State) (d : TypingData) :
    (onUserTyping s d).messages = s.messages ∧ (onUserTyping s d).sending = s.sending ∧
    (onUserTyping s d).conversations = s.conversations ∧
    (onUserTyping s d).listeners = s.listeners := by
  unfold onUserTyping
  split
  · exact ⟨rfl, rfl, rfl, rfl⟩
  · split
    · cases h : s.typingTimeoutRef <;> simp [clearTimeout, setTimeout, h]
    · exact ⟨rfl, rfl, rfl, rfl⟩

theorem fire_sending (s : State) (tm : Timer) : (fire s tm).sending = s.sending := by
  unfold fire emit
  cases tm.action
  · rfl
  · dsimp only
    split <;> rfl

/-- No step of the view changes the `sending` flag between its start and its end. -/
theorem step_sending (s : State) (e : Event) : (step s e).sending = s.sending := by
  cases e with
  | tick t => exact advance_frame (·.sending) fire_sending (fun _ _ => rfl) (fun _ _ => rfl) s t
  | auth user token => exact (authChanged_frame s user token).2.1
  | select c =>
    cases h1 : s.socketRef <;> cases h2 : s.selectedConversation <;>
      simp [step, setSelectedConversation, selectionCleanup, selectionEffect, fetchMessages,
        request, emit, h1, h2]
  | input value => exact (handleTyping_frame { s with newMessage := value }).2.1
  | submit b => exact (handleSendMessage_frame s b).2.1
  | socketConnect => rfl
  | socketDisconnect => rfl
  | newMessage m =>
    simp only [step, onNewMessage]
    split
    · rfl
    · split
      · split <;> rfl
      · rfl
  | userTyping d => exact (onUserTyping_frame s d).2.1
  | messagesRead c =>
    simp only [step, onMessagesRead]
    split <;> rfl
  | socketError m =>
    simp only [step, onSocketError]
    split
    · rfl
    · split <;> rfl
  | conversationsOk data =>
    simp only [step, settle]
    split <;> rfl
  | conversationsFail =>
    simp only [step, settle]
    split <;> rfl
  | messagesOk c data =>
    simp only [step, settle]
    split <;> rfl
  | messagesFail c =>
    simp only [step, settle]
    split <;> rfl
  | readOk c =>
    simp only [step, settle]
    split <;> rfl
  | readFail c =>
    simp only [step, settle]
    split <;> rfl

theorem ids_markRead (u c : String) (l : List Message) : ids (markRead u c l) = ids l := by
  unfold ids markRead
  rw [List.map_map]
  apply List.map_congr_left
  intro m _
  simp only [Function.comp]
  split <;> rfl

/-- Only the arrival of a message and the arrival of a history change the
identifiers in the message list. -/
theorem step_ids (s : State) (e : Event) (hn : ∀ m, e ≠ .newMessage m)
    (hm : ∀ c d, e ≠ .messagesOk c d) : ids (step s e).messages = ids s.messages := by
  cases e with
  | tick t => rw [show step s (.tick t) = advance s t from rfl, advance_messages]
  | auth user token => exact congrArg ids (authChanged_frame s user token).1
  | select c => exact congrArg ids (setSelectedConversation_inflight s c).2.2
  | input value => exact congrArg ids (handleTyping_frame { s with newMessage := value }).1
  | submit b => exact congrArg ids (handleSendMessage_frame s b).1
  | socketConnect => rfl
  | socketDisconnect => rfl
  | newMessage m => exact absurd rfl (hn m)
  | userTyping d => exact congrArg ids (onUserTyping_frame s d).1
  | messagesRead c =>
    simp only [step, onMessagesRead]
    split
    · rfl
    · exact ids_markRead _ _ _
  | socketError m =>
    simp only [step, onSocketError]
    split
    · rfl
    · split <;> rfl
  | conversationsOk data =>
    simp only [step, settle]
    split <;> rfl
  | conversationsFail =>
    simp only [step, settle]
    split <;> rfl
  | messagesOk c data => exact absurd rfl (hm c data)
  | messagesFail c =>
    simp only [step, settle]
    split <;> rfl
  | readOk c =>
    simp only [step, settle]
    split <;> rfl
  | readFail c =>
    simp only [step, settle]
    split <;> rfl

/-- C14 (as the code has it): a local send never inserts into the lists:
`handleSendMessage` leaves the message list and the conversation list
unchanged, whether the emit succeeds or throws.  A message enters the message
list only through an inbound new-message event or through a history snapshot:
every other step keeps the identifiers of the list. -/
theorem send_inserts_nothing (s : State) (b : Bool) :
    (step s (.submit b)).messages = s.messages ∧
    (step s (.submit b)).conversations = s.conversations ∧
    ∀ e, (∀ m, e ≠ .newMessage m) → (∀ c d, e ≠ .messagesOk c d) →
      ids (step s e).messages = ids s.messages :=
  ⟨(handleSendMessage_frame s b).1, (handleSendMessage_frame s b).2.2.1, step_ids s⟩

/-- Witness of C14: a read receipt keeps the identifiers of the list. -/
theorem send_inserts_nothing_witness :
    ids (step liveA (.messagesRead "A")).messages = ids liveA.messages :=
  (send_inserts_nothing liveA false).2.2 (.messagesRead "A") (by simp) (by simp)

/-- Counterexample to C14: the user sends "hello" while the history of A is in
flight; the send inserts nothing, no new-message event arrives, and the sent
message enters the list with the history snapshot. -/
theorem sent_message_enters_with_snapshot :
    (run liveA [.input "hello", .submit false]).messages = [] ∧
    (run liveA [.input "hello", .submit false]).emitted
      = liveA.emitted ++ [(0, Emit.typing "A" true), (0, Emit.sendMessage "A" "hello" "u2")] ∧
    delivered [.input "hello", .submit false, .messagesOk "A" [msgAlice "m9" 90]] = [] ∧
    (run liveA [.input "hello", .submit false, .messagesOk "A" [msgAlice "m9" 90]]).messages
      = [msgAlice "m9" 90] := by
  decide

/-- C15 (as the code has it): when the draft passes the send guard and the emit
throws, the input text after the handler is the draft with leading and
trailing white space removed; an error toast is shown, nothing is emitted and
`sending` is false. -/
theorem send_failure_restores_trimmed_draft (s : State) (c : Conversation) (b : Bool)
    (hsel : s.selectedConversation = some c) (hd : trim s.newMessage ≠ "")
    (hs : s.sending = false)
    (hfail : b = true ∨ s.socketRef = none ∨ c.otherParticipant = none) :
    (step s (.submit b)).newMessage = trim s.newMessage ∧
    (step s (.submit b)).toasts = s.toasts ++ ["Failed to send message"] ∧
    (step s (.submit b)).emitted = s.emitted ∧
    (step s (.submit b)).sending = false := by
  simp only [step, handleSendMessage, hsel, hd, hs]
  cases h1 : s.socketRef <;> cases h2 : c.otherParticipant <;>
    simp [toastError]
  rcases hfail with h | h | h
  · simp [h, toastError]
  · rw [h1] at h; cases h
  · rw [h2] at h; cases h

/-- Witness of C15: the draft " hi" and an emit that throws. -/
theorem send_failure_restores_trimmed_draft_witness :
    (step (run liveA [.input " hi"]) (.submit true)).newMessage
      = trim (run liveA [.input " hi"]).newMessage ∧
    (step (run liveA [.input " hi"]) (.submit true)).toasts
      = (run liveA [.input " hi"]).toasts ++ ["Failed to send message"] ∧
    (step (run liveA [.input " hi"]) (.submit true)).emitted
      = (run liveA [.input " hi"]).emitted ∧
    (step (run liveA [.input " hi"]) (.submit true)).sending = false :=
  send_failure_restores_trimmed_draft (run liveA [.input " hi"]) chatA true
    (by decide) (by decide) (by decide) (Or.inl rfl)

/-- Counterexample to C15: the user typed " hi", with a leading blank; the
draft passes the guard, the emit throws, and the input text is "hi". -/
theorem draft_restored_without_blanks :
    (run liveA [.input " hi"]).newMessage = " hi" ∧
    trim (run liveA [.input " hi"]).newMessage ≠ "" ∧
    (run liveA [.input " hi", .submit true]).newMessage = "hi" ∧
    (run liveA [.input " hi", .submit true]).newMessage ≠ " hi" := by
  decide

/-- In every state the view reaches, no send is in progress. -/
theorem run_sending (events : List Event) :
    ∀ s : State, s.sending = false → (run s events).sending = false := by
  induction events with
  | nil => exact fun s h => h
  | cons e es ih => exact fun s h => ih (step s e) ((step_sending s e).trans h)

/-- C16: in every state the view reaches from mounting, with or without a
socket and whether or not the emit throws, `handleSendMessage` returns a state
(every throw is inside the `try`), `sending` is false afterwards and the
message list is unchanged. -/
theorem send_never_faults (user : Option User) (token : Option String) (events : List Event)
    (b : Bool) :
    (step (run (mount user token) events) (.submit b)).sending = false ∧
    (step (run (mount user token) events) (.submit b)).messages
      = (run (mount user token) events).messages := by
  have h0 : (mount user token).sending = false := (connectionEffect_frame _).2.1
  exact ⟨(step_sending _ _).trans (run_sending events _ h0), (handleSendMessage_frame _ b).1⟩

/-! ## Reconnection -/

/-- C17 (as the code has it): the listeners of `disconnect` and `connect` only
log: a reconnect leaves the view as it was and emits nothing.  A
join-conversation is emitted by a click on a conversation only: what any other
step adds to the trace contains no join. -/
theorem reconnect_emits_nothing (s : State) :
    run s [.socketDisconnect, .socketConnect] = s ∧
    ∀ e, (∀ c, e ≠ .select c) →
      ∃ es, (step s e).emitted = s.emitted ++ es ∧
        ∀ x ∈ es, ∀ c, x.2 ≠ Emit.joinConversation c := by
  refine ⟨rfl, ?_⟩
  intro e he
  obtain ⟨_, _, es, h1, h2, _⟩ := quiet_step s e he
  refine ⟨es, h1, ?_⟩
  intro x hx c hc
  have := h2 x hx
  rw [hc] at this
  cases this

/-- Witness of C17: the passing of time emits no join. -/
theorem reconnect_emits_nothing_witness :
    ∃ es, (step openedA (.tick 10)).emitted = openedA.emitted ++ es ∧
      ∀ x ∈ es, ∀ c, x.2 ≠ Emit.joinConversation c :=
  (reconnect_emits_nothing openedA).2 (.tick 10) (by simp)

/-- Counterexample to C17: conversation A is selected; the channel drops and
reconnects; the trace still holds the one join emitted at selection. -/
theorem reconnect_does_not_rejoin :
    openedA.selectedConversation = some chatA ∧
    openedA.emitted = [(0, Emit.joinConversation "A")] ∧
    (run openedA [.socketDisconnect, .socketConnect]).emitted
      = [(0, Emit.joinConversation "A")] := by
  decide

/-! ## Snapshot failures -/

/-- C18: when the GET of `fetchConversations` fails, the conversation list is
what it was before the call, a toast is shown and `loading` is false; when it
succeeds, `loading` is false too.  When the GET of `fetchMessages` fails, the
message list is what it was before the call and a toast is shown.  The
failure is handled in the `catch` block: the step returns a state. -/
theorem snapshot_failure_keeps_lists (s : State) (c : String) (data : List Conversation) :
    ((step (fetchConversations s) .conversationsFail).conversations = s.conversations ∧
      (step (fetchConversations s) .conversationsFail).loading = false ∧
      (step (fetchConversations s) .conversationsFail).toasts
        = s.toasts ++ ["Failed to load conversations"]) ∧
    ((step (fetchConversations s) (.conversationsOk data)).conversations = data ∧
      (step (fetchConversations s) (.conversationsOk data)).loading = false) ∧
    ((step (fetchMessages s c) (.messagesFail c)).messages = s.messages ∧
      (step (fetchMessages s c) (.messagesFail c)).toasts
        = s.toasts ++ ["Failed to load messages"]) ∧
    (step s .conversationsFail).conversations = s.conversations ∧
    (step s (.messagesFail c)).messages = s.messages := by
  refine ⟨?_, ?_, ?_, ?_, ?_⟩
  · simp [step, settle, fetchConversations, request, fetchConversationsFail, toastError]
  · simp [step, settle, fetchConversations, request, fetchConversationsOk]
  · simp [step, settle, fetchMessages, request, fetchMessagesFail, toastError]
  · simp only [step, settle]
    split <;> rfl
  · simp only [step, settle]
    split <;> rfl

/-! ## The chat scenario -/

/-- With listeners that closed over conversation `c`, a run of scenario events
of `c` appends the delivered messages in order of delivery and keeps the
listeners; typing and sending add nothing. -/
theorem run_scenario (c : Conversation) (l : Listeners) (hc : l.selectedConversation = some c)
    (events : List Event) :
    ∀ s : State, s.listeners = some l → (∀ e ∈ events, scenarioEvent c._id e = true) →
      (run s events).messages = s.messages ++ delivered events := by
  induction events with
  | nil => intro s _ _; simp [run, delivered]
  | cons e es ih =>
    intro s hl hev
    have he := hev e (List.mem_cons_self _ _)
    have hes : ∀ x ∈ es, scenarioEvent c._id x = true :=
      fun x hx => hev x (List.mem_cons_of_mem _ hx)
    have hrun : run s (e :: es) = run (step s e) es := rfl
    rw [hrun]
    cases e with
    | newMessage m =>
      have hm : m.conversation = c._id := by simpa [scenarioEvent] using he
      have hstep : step s (.newMessage m)
          = fetchConversations { s with messages := s.messages ++ [m] } :=
        onNewMessage_match s l c m hl hc hm
      rw [hstep, ih _ (by simpa [fetchConversations, request] using hl) hes]
      simp [fetchConversations, request, delivered]
    | input value =>
      obtain ⟨h1, _, _, h4⟩ := handleTyping_frame { s with newMessage := value }
      have hstep : step s (.input value) = handleTyping { s with newMessage := value } := rfl
      rw [hstep, ih _ (h4.trans hl) hes, h1]
      simp [delivered]
    | submit b =>
      obtain ⟨h1, _, _, h4⟩ := handleSendMessage_frame s b
      have hstep : step s (.submit b) = handleSendMessage s b := rfl
      rw [hstep, ih _ (h4.trans hl) hes, h1]
      simp [delivered]
    | tick _ => simp [scenarioEvent] at he
    | auth _ _ => simp [scenarioEvent] at he
    | select _ => simp [scenarioEvent] at he
    | socketConnect => simp [scenarioEvent] at he
    | socketDisconnect => simp [scenarioEvent] at he
    | userTyping _ => simp [scenarioEvent] at he
    | messagesRead _ => simp [scenarioEvent] at he
    | socketError _ => simp [scenarioEvent] at he
    | conversationsOk _ => simp [scenarioEvent] at he
    | conversationsFail => simp [scenarioEvent] at he
    | messagesOk _ _ => simp [scenarioEvent] at he
    | messagesFail _ => simp [scenarioEvent] at he
    | readOk _ => simp [scenarioEvent] at he
    | readFail _ => simp [scenarioEvent] at he

/-- C19 (as the code has it): in a view whose listeners closed over the
selected conversation `c`, after the snapshot of `c` has arrived and then any
sequence of new-message events of `c`, changes of the input and sends, the
displayed list is the snapshot followed by the delivered messages in order of
delivery; a send adds nothing of its own, its echo is one more delivery.  The
list is in ascending order of `createdAt` exactly when snapshot and deliveries
are and no delivery is older than a snapshot message, and it has no identifier
twice exactly when snapshot and deliveries have none twice and share none. -/
theorem scenario_appends_in_delivery_order (s : State) (l : Listeners) (c : Conversation)
    (snapshot : List Message) (events : List Event)
    (hl : s.listeners = some l) (hc : l.selectedConversation = some c)
    (hin : Request.getMessages c._id ∈ s.inflight)
    (hev : ∀ e ∈ events, scenarioEvent c._id e = true) :
    (run s (.messagesOk c._id snapshot :: events)).messages = snapshot ++ delivered events ∧
    (run s (.messagesOk c._id snapshot :: events)).messages.length
      = snapshot.length + (delivered events).length ∧
    (ascending (run s (.messagesOk c._id snapshot :: events)).messages ↔
      ascending snapshot ∧ ascending (delivered events) ∧
        ∀ x ∈ snapshot, ∀ y ∈ delivered events, x.createdAt ≤ y.createdAt) ∧
    ((ids (run s (.messagesOk c._id snapshot :: events)).messages).Nodup ↔
      (ids snapshot).Nodup ∧ (ids (delivered events)).Nodup ∧
        ∀ x ∈ snapshot, ∀ y ∈ delivered events, x._id ≠ y._id) := by
  have hstep : step s (.messagesOk c._id snapshot)
      = fetchMessagesOk { s with inflight := s.inflight.erase (.getMessages c._id) }
          c._id snapshot := by
    simp [step, settle, hin]
  have hfinal : (run s (.messagesOk c._id snapshot :: events)).messages
      = snapshot ++ delivered events := by
    have hrun : run s (.messagesOk c._id snapshot :: events)
        = run (step s (.messagesOk c._id snapshot)) events := rfl
    rw [hrun, run_scenario c l hc events _ (by rw [hstep]; simpa [fetchMessagesOk, request] using hl)
      hev, hstep]
    simp [fetchMessagesOk, request]
  rw [hfinal]
  refine ⟨rfl, by simp, ?_, ?_⟩
  · simp only [ascending, List.Sorted, List.map_append, List.pairwise_append, List.mem_map]
    constructor
    · rintro ⟨h1, h2, h3⟩
      exact ⟨h1, h2, fun x hx y hy => h3 _ ⟨x, hx, rfl⟩ _ ⟨y, hy, rfl⟩⟩
    · rintro ⟨h1, h2, h3⟩
      refine ⟨h1, h2, ?_⟩
      rintro a ⟨x, hx, rfl⟩ b ⟨y, hy, rfl⟩
      exact h3 x hx y hy
  · simp only [ids, List.map_append, List.nodup_append, List.Disjoint, List.mem_map]
    constructor
    · rintro ⟨h1, h2, h3⟩
      exact ⟨h1, h2, fun x hx y hy hxy => h3 ⟨x, hx, rfl⟩ ⟨y, hy, hxy.symm⟩⟩
    · rintro ⟨h1, h2, h3⟩
      refine ⟨h1, h2, ?_⟩
      rintro a ⟨x, hx, rfl⟩ ⟨y, hy, hxy⟩
      exact h3 x hx y hy hxy.symm

/-- Witness of C19: a snapshot of five messages, two live messages, one send
and its echo give a list of eight. -/
theorem scenario_appends_in_delivery_order_witness :
    (run liveA (.messagesOk chatA._id historyA ::
      [.newMessage (msgBob "m6" 60), .newMessage (msgBob "m7" 70), .input "hello",
        .submit false, .newMessage (msgAlice "m8" 80)])).messages
      = historyA ++ [msgBob "m6" 60, msgBob "m7" 70, msgAlice "m8" 80] ∧
    (run liveA (.messagesOk chatA._id historyA ::
      [.newMessage (msgBob "m6" 60), .newMessage (msgBob "m7" 70), .input "hello",
        .submit false, .newMessage (msgAlice "m8" 80)])).messages.length = 5 + 3 :=
  ⟨(scenario_appends_in_delivery_order liveA ⟨alice, some chatA⟩ chatA historyA
      [.newMessage (msgBob "m6" 60), .newMessage (msgBob "m7" 70), .input "hello",
        .submit false, .newMessage (msgAlice "m8" 80)]
      (by decide) (by decide) (by decide) (by decide)).1,
    (scenario_appends_in_delivery_order liveA ⟨alice, some chatA⟩ chatA historyA
      [.newMessage (msgBob "m6" 60), .newMessage (msgBob "m7" 70), .input "hello",
        .submit false, .newMessage (msgAlice "m8" 80)]
      (by decide) (by decide) (by decide) (by decide)).2.1⟩

/-- Counterexample to C19: after a sorted snapshot of five messages with
distinct identifiers, two messages of the conversation are delivered with the
later one first; the displayed list is not in chronological order. -/
theorem scenario_out_of_order :
    liveA.listeners = some ⟨alice, some chatA⟩ ∧
    ascending historyA ∧ (ids historyA).Nodup ∧
    (run liveA [.messagesOk "A" historyA, .newMessage (msgBob "m7" 70),
        .newMessage (msgBob "m6" 60)]).messages
      = historyA ++ [msgBob "m7" 70, msgBob "m6" 60] ∧
    ¬ ascending (run liveA [.messagesOk "A" historyA, .newMessage (msgBob "m7" 70),
        .newMessage (msgBob "m6" 60)]).messages := by
  decide

/-! ## Scope of the remote typing indicator -/

/-- C20 (as the code has it): the user-typing listener never reads the
`conversationId` of the event: the step is the same for every conversation id.
With listeners that closed over some conversation, an event of another user
shows the indicator with that user's name and schedules the auto-hide 3000 ms
later, whatever conversation the event names; an event of the current user, or
listeners that closed over no conversation, leave the view as it was. -/
theorem userTyping_ignores_conversation (s : State) (l : Listeners) (d : TypingData)
    (other : String) (hl : s.listeners = some l) :
    step s (.userTyping { d with conversationId := other }) = step s (.userTyping d) ∧
    (l.selectedConversation.isSome = true ∧ d.userId ≠ l.user.id →
      (step s (.userTyping d)).typing = true ∧
      (step s (.userTyping d)).typingUser = some d.userName ∧
      (step s (.userTyping d)).typingTimeoutRef = some s.nextTimer ∧
      (⟨s.nextTimer, s.now + 3000, .hideIndicator⟩ : Timer) ∈ (step s (.userTyping d)).timers) ∧
    (¬ (l.selectedConversation.isSome = true ∧ d.userId ≠ l.user.id) →
      step s (.userTyping d) = s) := by
  refine ⟨rfl, ?_, ?_⟩
  · rintro ⟨h1, h2⟩
    cases hr : s.typingTimeoutRef <;>
      simp [step, onUserTyping, hl, h1, h2, clearTimeout, setTimeout, hr]
  · intro h
    simp only [step, onUserTyping, hl]
    rw [if_neg h]

/-- Witness of C20: Carol's typing event names conversation B while the
listeners closed over A. -/
theorem userTyping_ignores_conversation_witness :
    (step liveA (.userTyping ⟨"u3", "Carol", "B"⟩)).typing = true ∧
    (step liveA (.userTyping ⟨"u3", "Carol", "B"⟩)).typingUser = some "Carol" ∧
    (step liveA (.userTyping ⟨"u3", "Carol", "B"⟩)).typingTimeoutRef = some liveA.nextTimer ∧
    (⟨liveA.nextTimer, liveA.now + 3000, .hideIndicator⟩ : Timer)
      ∈ (step liveA (.userTyping ⟨"u3", "Carol", "B"⟩)).timers :=
  (userTyping_ignores_conversation liveA ⟨alice, some chatA⟩ ⟨"u3", "Carol", "B"⟩ "A"
    (by decide)).2.1 (by decide)

/-- Counterexample to C20: conversation A is selected and the listeners closed
over it; a user-typing event for conversation B shows the indicator and
schedules the auto-hide. -/
theorem typing_of_other_conversation_shown :
    liveA.selectedConversation = some chatA ∧
    (⟨"u3", "Carol", "B"⟩ : TypingData).conversationId ≠ chatA._id ∧
    liveA.typing = false ∧
    (step liveA (.userTyping ⟨"u3", "Carol", "B"⟩)).typing = true ∧
    (step liveA (.userTyping ⟨"u3", "Carol", "B"⟩)).timers = [⟨1, 3000, .hideIndicator⟩] := by
  decide

/-! ## Restart of the auto-hide -/

/-- A user-typing event of another user in a state where every pending timer
is the one held by the ref: the indicator is shown and the only pending timer
is the new auto-hide. -/
theorem onUserTyping_fresh (s : State) (l : Listeners) (d : TypingData)
    (hl : s.listeners = some l) (hsel : l.selectedConversation.isSome = true)
    (huser : d.userId ≠ l.user.id)
    (href : ∀ tm ∈ s.timers, s.typingTimeoutRef = some tm.id) :
    onUserTyping s d = { s with
      typing := true,
      typingUser := some d.userName,
      timers := [⟨s.nextTimer, s.now + 3000, .hideIndicator⟩],
      nextTimer := s.nextTimer + 1,
      typingTimeoutRef := some s.nextTimer } := by
  cases hr : s.typingTimeoutRef with
  | none =>
    have : s.timers = [] := by
      apply List.eq_nil_iff_forall_not_mem.2
      intro tm htm
      have := href tm htm
      rw [hr] at this
      cases this
    simp [onUserTyping, hl, hsel, huser, clearTimeout, setTimeout, hr, this]
  | some i =>
    have : s.timers.filter (fun tm => tm.id != i) = [] := by
      rw [List.filter_eq_nil_iff]
      intro tm htm
      have := href tm htm
      rw [hr] at this
      cases this
      simp
    simp [onUserTyping, hl, hsel, huser, clearTimeout, setTimeout, hr, this]

/-- When the auto-hide is the only pending timer, the indicator is shown until
the timer is due and hidden from then on, with no timer left. -/
theorem advance_single_hide (s : State) (i D T : Nat) (u : String)
    (htyping : s.typing = true) (huser : s.typingUser = some u)
    (htm : s.timers = [⟨i, D, .hideIndicator⟩]) :
    (T < D → (advance s T).typing = true ∧ (advance s T).typingUser = some u ∧
      (advance s T).timers = [⟨i, D, .hideIndicator⟩]) ∧
    (D ≤ T → (advance s T).typing = false ∧ (advance s T).typingUser = none ∧
      (advance s T).timers = []) := by
  constructor
  · intro h
    have hidle := advance_idle s T (by intro tm htm2; rw [htm] at htm2; simp at htm2; rw [htm2]; exact h)
    rw [hidle]
    exact ⟨htyping, huser, htm⟩
  · intro h
    simp [advance, htm, h, fire]

/-- C21: in a view whose listeners closed over a conversation and in which
every pending timer is the one held by the ref, let a user-typing event of
another user arrive now (time `t1`) and a second one at `t2`, with
`t1 < t2 < t1 + 3000`, and nothing else happen.  The indicator is shown at
every time of `[t1, t2 + 3000)`, also at `t1 + 3000`; after the second event
the only pending timer is the auto-hide due at `t2 + 3000`; from `t2 + 3000`
on the indicator is hidden and no timer is pending. -/
theorem remote_typing_restarts_auto_hide (s : State) (l : Listeners) (d1 d2 : TypingData)
    (t2 : Nat) (hl : s.listeners = some l) (hsel : l.selectedConversation.isSome = true)
    (hu1 : d1.userId ≠ l.user.id) (hu2 : d2.userId ≠ l.user.id)
    (href : ∀ tm ∈ s.timers, s.typingTimeoutRef = some tm.id)
    (h12 : s.now < t2) (h23 : t2 < s.now + 3000) :
    (∀ t, t < t2 → (run s [.userTyping d1, .tick t]).typing = true) ∧
    (∀ T, T < t2 + 3000 →
      (run s [.userTyping d1, .tick t2, .userTyping d2, .tick T]).typing = true) ∧
    (run s [.userTyping d1, .tick t2, .userTyping d2]).timers
      = [⟨s.nextTimer + 1, t2 + 3000, .hideIndicator⟩] ∧
    (∀ T, t2 + 3000 ≤ T →
      (run s [.userTyping d1, .tick t2, .userTyping d2, .tick T]).typing = false ∧
      (run s [.userTyping d1, .tick t2, .userTyping d2, .tick T]).typingUser = none ∧
      (run s [.userTyping d1, .tick t2, .userTyping d2, .tick T]).timers = []) := by
  have e1 := onUserTyping_fresh s l d1 hl hsel hu1 href
  have hs1 : run s [.userTyping d1] = onUserTyping s d1 := rfl
  -- the state after the first event
  have f1 : (onUserTyping s d1).typing = true ∧
      (onUserTyping s d1).typingUser = some d1.userName ∧
      (onUserTyping s d1).timers = [⟨s.nextTimer, s.now + 3000, .hideIndicator⟩] ∧
      (onUserTyping s d1).typingTimeoutRef = some s.nextTimer ∧
      (onUserTyping s d1).listeners = some l ∧
      (onUserTyping s d1).now = s.now ∧
      (onUserTyping s d1).nextTimer = s.nextTimer + 1 := by
    rw [e1]; exact ⟨rfl, rfl, rfl, rfl, hl, rfl, rfl⟩
  obtain ⟨f1a, f1b, f1c, f1d, f1e, f1f, f1g⟩ := f1
  -- time passes until the second event
  have hidle : advance (onUserTyping s d1) t2
      = { onUserTyping s d1 with now := max (onUserTyping s d1).now t2 } :=
    advance_idle _ t2 (by intro tm htm; rw [f1c] at htm; simp at htm; rw [htm]; exact h23)
  have hmax : max (onUserTyping s d1).now t2 = t2 := by rw [f1f]; exact max_eq_right h12.le
  rw [hmax] at hidle
  have e2 := onUserTyping_fresh (advance (onUserTyping s d1) t2) l d2
    (by rw [hidle]; exact f1e) hsel hu2
    (by
      intro tm htm
      rw [hidle] at htm ⊢
      simp only at htm ⊢
      rw [f1c] at htm
      simp at htm
      rw [htm, f1d])
  have hs2 : run s [.userTyping d1, .tick t2, .userTyping d2]
      = onUserTyping (advance (onUserTyping s d1) t2) d2 := rfl
  have f2 : (run s [.userTyping d1, .tick t2, .userTyping d2]).typing = true ∧
      (run s [.userTyping d1, .tick t2, .userTyping d2]).typingUser = some d2.userName ∧
      (run s [.userTyping d1, .tick t2, .userTyping d2]).timers
        = [⟨s.nextTimer + 1, t2 + 3000, .hideIndicator⟩] := by
    rw [hs2, e2, hidle]
    simp [f1g]
  obtain ⟨f2a, f2b, f2c⟩ := f2
  have hlast : ∀ T, run s [.userTyping d1, .tick t2, .userTyping d2, .tick T]
      = advance (run s [.userTyping d1, .tick t2, .userTyping d2]) T := fun _ => rfl
  refine ⟨?_, ?_, f2c, ?_⟩
  · intro t ht
    have hrun : run s [.userTyping d1, .tick t] = advance (onUserTyping s d1) t := rfl
    rw [hrun]
    exact ((advance_single_hide _ _ _ t _ f1a f1b f1c).1 (by omega)).1
  · intro T hT
    rw [hlast]
    exact ((advance_single_hide _ _ _ T _ f2a f2b f2c).1 hT).1
  · intro T hT
    rw [hlast]
    exact (advance_single_hide _ _ _ T _ f2a f2b f2c).2 hT

/-- Witness of C21: Bob types at 0 and again at 2000 ms; the indicator is
still shown at 3000 ms and hidden at 5000 ms. -/
theorem remote_typing_restarts_auto_hide_witness :
    (run liveA [.userTyping ⟨"u2", "Bob", "A"⟩, .tick 2000, .userTyping ⟨"u2", "Bob", "A"⟩,
      .tick 3000]).typing = true ∧
    (run liveA [.userTyping ⟨"u2", "Bob", "A"⟩, .tick 2000, .userTyping ⟨"u2", "Bob", "A"⟩,
      .tick 5000]).typing = false :=
  ⟨(remote_typing_restarts_auto_hide liveA ⟨alice, some chatA⟩ ⟨"u2", "Bob", "A"⟩
      ⟨"u2", "Bob", "A"⟩ 2000 (by decide) (by decide) (by decide) (by decide) (by decide)
      (by decide) (by decide)).2.1 3000 (by decide),
    ((remote_typing_restarts_auto_hide liveA ⟨alice, some chatA⟩ ⟨"u2", "Bob", "A"⟩
      ⟨"u2", "Bob", "A"⟩ 2000 (by decide) (by decide) (by decide) (by decide) (by decide)
      (by decide) (by decide)).2.2.2 5000 (by decide)).1⟩

/-! ## Typing after leaving -/

/-- Failing input of C22: in conversation A the user presses a key at time 0,
which schedules typing false for A at 1000 ms; at 500 ms the user switches to
B, and leave-conversation for A is emitted; the cleanup of the selection effect
clears no timer, and at 1000 ms typing false for A is emitted, after the leave. -/
theorem typing_emitted_after_leave :
    (run openedA [.input "h", .tick 500, .select chatB]).timers
      = [⟨1, 1000, .typingFalse "A"⟩] ∧
    (run openedA [.input "h", .tick 500, .select chatB, .tick 1000]).emitted
      = [(0, Emit.joinConversation "A"), (0, Emit.typing "A" true),
         (500, Emit.leaveConversation "A"), (500, Emit.joinConversation "B"),
         (1000, Emit.typing "A" false)] := by
  decide

/-! ## Successful send and send guard -/

/-- C23: when a conversation with its other participant is selected, the
socket exists, no send is in progress, the draft is not blank and the emit
does not throw, `handleSendMessage` adds exactly one emission to the trace,
send-message with the id of the selected conversation, the trimmed draft and
the id of the other participant; afterwards the input text is empty and
`sending` is false. -/
theorem send_emits_one_message (s : State) (c : Conversation) (p : Participant) (k : Nat)
    (hsel : s.selectedConversation = some c) (hp : c.otherParticipant = some p)
    (hsock : s.socketRef = some k) (hd : trim s.newMessage ≠ "") (hs : s.sending = false) :
    (step s (.submit false)).emitted
      = s.emitted ++ [(s.now, Emit.sendMessage c._id (trim s.newMessage) p._id)] ∧
    (step s (.submit false)).newMessage = "" ∧
    (step s (.submit false)).sending = false := by
  simp [step, handleSendMessage, hsel, hp, hsock, hd, hs, emit]

/-- Witness of C23: the draft " hi " is sent in conversation A as "hi". -/
theorem send_emits_one_message_witness :
    (step (run liveA [.input " hi "]) (.submit false)).emitted
      = (run liveA [.input " hi "]).emitted
        ++ [((run liveA [.input " hi "]).now,
            Emit.sendMessage chatA._id (trim (run liveA [.input " hi "]).newMessage) "u2")] ∧
    (step (run liveA [.input " hi "]) (.submit false)).newMessage = "" ∧
    (step (run liveA [.input " hi "]) (.submit false)).sending = false :=
  send_emits_one_message (run liveA [.input " hi "]) chatA ⟨"u2", "Bob"⟩ 2
    (by decide) (by decide) (by decide) (by decide) (by decide)

/-- A text trims to the empty string exactly when all its characters are white space. -/
theorem trim_eq_empty_iff (t : String) : trim t = "" ↔ ∀ c ∈ t.data, isTrimmed c = true := by
  have hstr : ∀ l : List Char, String.mk l = "" ↔ l = [] := by
    intro l
    constructor
    · intro h
      have := congrArg String.data h
      simpa using this
    · rintro rfl
      rfl
  unfold trim
  rw [hstr, List.reverse_eq_nil_iff, List.dropWhile_eq_nil_iff]
  constructor
  · intro h
    have hnil : t.data.dropWhile isTrimmed = [] := by
      cases hd : t.data.dropWhile isTrimmed with
      | nil => rfl
      | cons x xs =>
        have hx : isTrimmed x = true := h x (by rw [hd]; simp)
        have hne : t.data.dropWhile isTrimmed ≠ [] := by rw [hd]; simp
        have := List.head_dropWhile_not isTrimmed t.data hne
        simp only [hd, List.head_cons] at this
        rw [hx] at this
        cases this
    exact List.dropWhile_eq_nil_iff.1 hnil
  · intro h x hx
    have hnil : t.data.dropWhile isTrimmed = [] := List.dropWhile_eq_nil_iff.2 h
    rw [hnil] at hx
    simp at hx

/-- C26: when the draft is empty or consists of white space only, or no
conversation is selected, or a send is in progress, `handleSendMessage`
returns the state it was given: nothing is emitted, and the draft, the
`sending` flag and the message list are what they were. -/
theorem send_guard_blocks (s : State) (b : Bool)
    (h : (∀ c ∈ s.newMessage.data, isTrimmed c = true) ∨ s.selectedConversation = none ∨
      s.sending = true) :
    step s (.submit b) = s ∧
    (step s (.submit b)).emitted = s.emitted ∧
    (step s (.submit b)).newMessage = s.newMessage ∧
    (step s (.submit b)).sending = s.sending ∧
    (step s (.submit b)).messages = s.messages := by
  have hstep : step s (.submit b) = s := by
    show handleSendMessage s b = s
    unfold handleSendMessage
    rcases h with h | h | h
    · have ht := (trim_eq_empty_iff s.newMessage).2 h
      split
      · rfl
      · simp [ht]
    · simp [h]
    · split
      · rfl
      · simp [h]
  rw [hstep]
  exact ⟨rfl, rfl, rfl, rfl, rfl⟩

/-- Witness of C26: a draft of two blanks in conversation A. -/
theorem send_guard_blocks_witness :
    step (run liveA [.input "  "]) (.submit false) = run liveA [.input "  "] ∧
    (step (run liveA [.input "  "]) (.submit false)).emitted = (run liveA [.input "  "]).emitted ∧
    (step (run liveA [.input "  "]) (.submit false)).newMessage
      = (run liveA [.input "  "]).newMessage ∧
    (step (run liveA [.input "  "]) (.submit false)).sending
      = (run liveA [.input "  "]).sending ∧
    (step (run liveA [.input "  "]) (.submit false)).messages
      = (run liveA [.input "  "]).messages :=
  send_guard_blocks (run liveA [.input "  "]) false (Or.inl (by decide))

/-! ## Frame of the read receipt -/

theorem markRead_idem (u c : String) (l : List Message) :
    markRead u c (markRead u c l) = markRead u c l := by
  unfold markRead
  rw [List.map_map]
  apply List.map_congr_left
  intro m _
  simp only [Function.comp]
  by_cases h : m.conversation = c ∧ m.sender._id ≠ u
  · simp [h]
  · simp [h]

/-- C24: the messages-read listener changes the message list only, and in it
only read flags.  The result has the length of the list and, position by
position, holds the message itself or the message with `read` set; a message
of another conversation is unchanged; a second application of the same event
changes nothing more. -/
theorem messagesRead_changes_flags_only (s : State) (cid : String) :
    step s (.messagesRead cid)
      = { s with messages := (step s (.messagesRead cid)).messages } ∧
    (step s (.messagesRead cid)).messages.length = s.messages.length ∧
    (∀ (i : Nat) (msg : Message), s.messages[i]? = some msg →
      ((step s (.messagesRead cid)).messages[i]? = some msg ∨
        (step s (.messagesRead cid)).messages[i]? = some { msg with read := true }) ∧
      (msg.conversation ≠ cid → (step s (.messagesRead cid)).messages[i]? = some msg)) ∧
    run s [.messagesRead cid, .messagesRead cid] = run s [.messagesRead cid] := by
  have hcases : s.listeners = none ∨ ∃ l, s.listeners = some l := by
    cases s.listeners <;> simp
  have hrun : run s [.messagesRead cid, .messagesRead cid]
      = onMessagesRead (onMessagesRead s cid) cid := rfl
  have hrun1 : run s [.messagesRead cid] = onMessagesRead s cid := rfl
  have hstep : step s (.messagesRead cid) = onMessagesRead s cid := rfl
  rw [hrun, hrun1, hstep]
  rcases hcases with hl | ⟨l, hl⟩
  · have h1 : onMessagesRead s cid = s := by simp [onMessagesRead, hl]
    rw [h1, h1]
    exact ⟨rfl, rfl, fun i msg hi => ⟨Or.inl hi, fun _ => hi⟩, rfl⟩
  · have h1 : ∀ x : State, x.listeners = some l → onMessagesRead x cid
        = { x with messages := markRead l.user.id cid x.messages } := by
      intro x hx
      simp [onMessagesRead, hx]
    rw [h1 _ (show (onMessagesRead s cid).listeners = some l by rw [h1 s hl]; exact hl), h1 s hl]
    refine ⟨rfl, by simp [markRead], ?_, ?_⟩
    · intro i msg hi
      simp only [markRead, List.getElem?_map, hi, Option.map_some']
      refine ⟨?_, ?_⟩
      · by_cases h : msg.conversation = cid ∧ msg.sender._id ≠ l.user.id
        · right; simp [h]
        · left; simp [h]
      · intro hc; simp [hc]
    · simp [markRead_idem]

/-- Witness of C24: a read receipt for A in a list with one message of each
participant. -/
theorem messagesRead_changes_flags_only_witness :
    (step (run liveA [.messagesOk "A" [msgBob "m1" 1, msgAlice "m2" 2]])
        (.messagesRead "A")).messages[1]? = some (msgAlice "m2" 2) ∨
    (step (run liveA [.messagesOk "A" [msgBob "m1" 1, msgAlice "m2" 2]])
        (.messagesRead "A")).messages[1]? = some { msgAlice "m2" 2 with read := true } :=
  ((messagesRead_changes_flags_only (run liveA [.messagesOk "A" [msgBob "m1" 1, msgAlice "m2" 2]])
    "A").2.2.1 1 (msgAlice "m2" 2) (by decide)).1

/-! ## Listeners registered at mount -/

theorem fire_listeners (s : State) (tm : Timer) : (fire s tm).listeners = s.listeners := by
  unfold fire emit
  cases tm.action
  · rfl
  · dsimp only
    split <;> rfl

theorem advance_keeps_hidden (s : State) (t : Nat)
    (h : s.typing = false ∧ s.typingUser = none) :
    (advance s t).typing = false ∧ (advance s t).typingUser = none := by
  unfold advance
  dsimp only
  exact foldl_fire_keeps_hidden _ _ h

/-- Steps that are neither a change of `user` or `token`, nor the passing of
time, nor a user-typing event keep the listeners and the typing indicator. -/
theorem step_indicator_frame (s : State) (e : Event) (ha : ∀ u t, e ≠ .auth u t)
    (ht : ∀ t, e ≠ .tick t) (hu : ∀ d, e ≠ .userTyping d) :
    (step s e).listeners = s.listeners ∧ (step s e).typing = s.typing ∧
    (step s e).typingUser = s.typingUser := by
  cases e with
  | tick t => exact absurd rfl (ht t)
  | auth user token => exact absurd rfl (ha user token)
  | userTyping d => exact absurd rfl (hu d)
  | select c =>
    cases h1 : s.socketRef <;> cases h2 : s.selectedConversation <;>
      simp [step, setSelectedConversation, selectionCleanup, selectionEffect, fetchMessages,
        request, emit, h1, h2]
  | input value =>
    cases h1 : s.socketRef <;> cases h2 : s.selectedConversation <;>
      cases h3 : s.typingTimeoutRef <;>
      simp [step, onInputChange, handleTyping, emit, clearTimeout, setTimeout, h1, h2, h3]
  | submit b =>
    refine ⟨(handleSendMessage_frame s b).2.2.2, ?_⟩
    simp only [step]
    unfold handleSendMessage
    split
    · exact ⟨rfl, rfl⟩
    · dsimp only
      split
      · exact ⟨rfl, rfl⟩
      · split
        · split
          · exact ⟨rfl, rfl⟩
          · unfold emit
            dsimp only
            split <;> exact ⟨rfl, rfl⟩
        · exact ⟨rfl, rfl⟩
  | socketConnect => exact ⟨rfl, rfl, rfl⟩
  | socketDisconnect => exact ⟨rfl, rfl, rfl⟩
  | newMessage m =>
    simp only [step, onNewMessage]
    split
    · exact ⟨rfl, rfl, rfl⟩
    · next l hl =>
      split
      · split <;> exact ⟨hl.symm ▸ rfl, rfl, rfl⟩
      · exact ⟨hl.symm ▸ rfl, rfl, rfl⟩
  | messagesRead c =>
    simp only [step, onMessagesRead]
    split
    · exact ⟨rfl, rfl, rfl⟩
    · next l hl => exact ⟨hl.symm ▸ rfl, rfl, rfl⟩
  | socketError m =>
    simp only [step, onSocketError]
    split
    · exact ⟨rfl, rfl, rfl⟩
    · next l hl => split <;> exact ⟨hl.symm ▸ rfl, rfl, rfl⟩
  | conversationsOk data =>
    simp only [step, settle]
    split <;> exact ⟨rfl, rfl, rfl⟩
  | conversationsFail =>
    simp only [step, settle]
    split <;> exact ⟨rfl, rfl, rfl⟩
  | messagesOk c data =>
    simp only [step, settle]
    split <;> exact ⟨rfl, rfl, rfl⟩
  | messagesFail c =>
    simp only [step, settle]
    split <;> exact ⟨rfl, rfl, rfl⟩
  | readOk c =>
    simp only [step, settle]
    split <;> exact ⟨rfl, rfl, rfl⟩
  | readFail c =>
    simp only [step, settle]
    split <;> exact ⟨rfl, rfl, rfl⟩

/-- With listeners that closed over no conversation, a user-typing event
leaves the view as it was. -/
theorem onUserTyping_stale (s : State) (d : TypingData)
    (h : ∀ l, s.listeners = some l → l.selectedConversation = none) :
    onUserTyping s d = s := by
  unfold onUserTyping
  split
  · rfl
  · next l hl =>
    have := h l hl
    simp [this]

/-- Listeners that closed over no conversation, with the indicator hidden,
stay so under every step that is not a change of `user` or `token`. -/
theorem step_stale (s : State) (e : Event) (ha : ∀ u t, e ≠ .auth u t)
    (h : (∀ l, s.listeners = some l → l.selectedConversation = none) ∧
      s.typing = false ∧ s.typingUser = none) :
    (∀ l, (step s e).listeners = some l → l.selectedConversation = none) ∧
    (step s e).typing = false ∧ (step s e).typingUser = none := by
  by_cases ht : ∃ t, e = .tick t
  · obtain ⟨t, rfl⟩ := ht
    have hl : (step s (.tick t)).listeners = s.listeners :=
      advance_frame (·.listeners) fire_listeners (fun _ _ => rfl) (fun _ _ => rfl) s t
    rw [hl]
    exact ⟨h.1, advance_keeps_hidden s t h.2⟩
  · by_cases hu : ∃ d, e = .userTyping d
    · obtain ⟨d, rfl⟩ := hu
      have hs : step s (.userTyping d) = s := onUserTyping_stale s d h.1
      rw [hs]
      exact h
    · obtain ⟨f1, f2, f3⟩ := step_indicator_frame s e ha (fun t he => ht ⟨t, he⟩)
        (fun d he => hu ⟨d, he⟩)
      rw [f1, f2, f3]
      exact h

theorem run_stale (events : List Event) (ha : ∀ e ∈ events, ∀ u t, e ≠ Event.auth u t) :
    ∀ s : State,
      ((∀ l, s.listeners = some l → l.selectedConversation = none) ∧
        s.typing = false ∧ s.typingUser = none) →
      (∀ l, (run s events).listeners = some l → l.selectedConversation = none) ∧
      (run s events).typing = false ∧ (run s events).typingUser = none := by
  induction events with
  | nil => exact fun s h => h
  | cons e es ih =>
    intro s h
    exact ih (fun x hx => ha x (List.mem_cons_of_mem _ hx)) (step s e)
      (step_stale s e (ha e (List.mem_cons_self _ _)) h)

theorem mount_stale (user : Option User) (token : Option String) :
    (∀ l, (mount user token).listeners = some l → l.selectedConversation = none) ∧
    (mount user token).typing = false ∧ (mount user token).typingUser = none := by
  unfold mount connectionEffect
  split
  · split
    · exact ⟨fun l hl => by simp [initial] at hl, rfl, rfl⟩
    · refine ⟨fun l hl => ?_, rfl, rfl⟩
      simp only [fetchConversations, request, initial, Option.some.injEq] at hl
      rw [← hl]
  · exact ⟨fun l hl => by simp [initial] at hl, rfl, rfl⟩

/-- C25: the listeners test the selection they closed over.  After the view is
mounted (the connection effect runs with nothing selected), in every state
reached without a change of `user` or `token`, whatever was selected since:
the listeners closed over no conversation; the indicator is hidden, so no
user-typing event of the run has shown it, and a further one leaves the view
as it was; a new-message event, also one for the selected conversation, leaves
the message list unchanged and, when a connection is open, requests the
refresh of the conversation list and nothing else. -/
theorem listeners_stay_stale (user : Option User) (token : Option String)
    (events : List Event) (ha : ∀ e ∈ events, ∀ u t, e ≠ Event.auth u t) :
    (∀ l, (run (mount user token) events).listeners = some l → l.selectedConversation = none) ∧
    (run (mount user token) events).typing = false ∧
    (∀ d, step (run (mount user token) events) (.userTyping d) = run (mount user token) events) ∧
    (∀ m, (step (run (mount user token) events) (.newMessage m)).messages
      = (run (mount user token) events).messages) ∧
    (∀ m l, (run (mount user token) events).listeners = some l →
      (step (run (mount user token) events) (.newMessage m)).requests
        = (run (mount user token) events).requests ++ [.getConversations]) := by
  obtain ⟨h1, h2, _⟩ := run_stale events ha _ (mount_stale user token)
  refine ⟨h1, h2, fun d => onUserTyping_stale _ d h1, ?_, ?_⟩
  · intro m
    cases hl : (run (mount user token) events).listeners with
    | none => simp [step, onNewMessage, hl]
    | some l =>
      exact (onNewMessage_other _ l m hl (fun c hc => by rw [h1 l hl] at hc; cases hc)).1
  · intro m l hl
    exact (onNewMessage_other _ l m hl (fun c hc => by rw [h1 l hl] at hc; cases hc)).2

/-- Witness of C25: A is selected after mounting and its history arrives; a
message for A leaves the list as it is. -/
theorem listeners_stay_stale_witness :
    (step (run (mount (some alice) (some "t1")) [.select chatA, .messagesOk "A" historyA])
        (.newMessage (msgBob "m6" 60))).messages
      = (run (mount (some alice) (some "t1")) [.select chatA, .messagesOk "A" historyA]).messages :=
  (listeners_stay_stale (some alice) (some "t1") [.select chatA, .messagesOk "A" historyA]
    (by simp)).2.2.2.1 (msgBob "m6" 60)

/-! ## Time labels -/

/-- C29: `formatTime` by cases on `d = now - timestamp`, in milliseconds: the
empty string for a missing timestamp; "Just now" for `d < 60000`, negative `d`
included; the minutes `d / 60000`, between 1 and 59, for
`60000 ≤ d < 3600000`; the hours `d / 3600000`, between 1 and 23, for
`3600000 ≤ d < 86400000`; the days `d / 86400000`, between 1 and 6, for
`86400000 ≤ d < 604800000`; the locale date string from then on.  The five
ranges of `d` cover the integers and exclude each other. -/
theorem formatTime_partition (toLocaleDateString : Int → String) (timestamp now : Int) :
    formatTime toLocaleDateString none now = "" ∧
    (now - timestamp < 60000 →
      formatTime toLocaleDateString (some timestamp) now = "Just now") ∧
    (60000 ≤ now - timestamp → now - timestamp < 3600000 →
      formatTime toLocaleDateString (some timestamp) now
        = toString ((now - timestamp) / 60000) ++ "m ago" ∧
      1 ≤ (now - timestamp) / 60000 ∧ (now - timestamp) / 60000 ≤ 59) ∧
    (3600000 ≤ now - timestamp → now - timestamp < 86400000 →
      formatTime toLocaleDateString (some timestamp) now
        = toString ((now - timestamp) / 3600000) ++ "h ago" ∧
      1 ≤ (now - timestamp) / 3600000 ∧ (now - timestamp) / 3600000 ≤ 23) ∧
    (86400000 ≤ now - timestamp → now - timestamp < 604800000 →
      formatTime toLocaleDateString (some timestamp) now
        = toString ((now - timestamp) / 86400000) ++ "d ago" ∧
      1 ≤ (now - timestamp) / 86400000 ∧ (now - timestamp) / 86400000 ≤ 6) ∧
    (604800000 ≤ now - timestamp →
      formatTime toLocaleDateString (some timestamp) now = toLocaleDateString timestamp) := by
  refine ⟨rfl, ?_, ?_, ?_, ?_, ?_⟩
  · intro h
    have h1 : (now - timestamp) / 60000 < 1 := by omega
    simp [formatTime, h1]
  · intro h1 h2
    have a1 : ¬ (now - timestamp) / 60000 < 1 := by omega
    have a2 : (now - timestamp) / 60000 < 60 := by omega
    refine ⟨by simp [formatTime, a1, a2], by omega, by omega⟩
  · intro h1 h2
    have a1 : ¬ (now - timestamp) / 60000 < 1 := by omega
    have a2 : ¬ (now - timestamp) / 60000 < 60 := by omega
    have a3 : (now - timestamp) / 3600000 < 24 := by omega
    refine ⟨by simp [formatTime, a1, a2, a3], by omega, by omega⟩
  · intro h1 h2
    have a1 : ¬ (now - timestamp) / 60000 < 1 := by omega
    have a2 : ¬ (now - timestamp) / 60000 < 60 := by omega
    have a3 : ¬ (now - timestamp) / 3600000 < 24 := by omega
    have a4 : (now - timestamp) / 86400000 < 7 := by omega
    refine ⟨by simp [formatTime, a1, a2, a3, a4], by omega, by omega⟩
  · intro h1
    have a1 : ¬ (now - timestamp) / 60000 < 1 := by omega
    have a2 : ¬ (now - timestamp) / 60000 < 60 := by omega
    have a3 : ¬ (now - timestamp) / 3600000 < 24 := by omega
    have a4 : ¬ (now - timestamp) / 86400000 < 7 := by omega
    simp [formatTime, a1, a2, a3, a4]

/-- Witness of C29: a message created 90 minutes ago is labelled "1h ago". -/
theorem formatTime_partition_witness :
    formatTime (fun _ => "1/1/1970") (some 0) 5400000
        = toString (((5400000 : Int) - 0) / 3600000) ++ "h ago" ∧
    1 ≤ ((5400000 : Int) - 0) / 3600000 ∧ ((5400000 : Int) - 0) / 3600000 ≤ 23 :=
  (formatTime_partition (fun _ => "1/1/1970") 0 5400000).2.2.2.1 (by decide) (by decide)

end Messages

namespace Notifications

/-! ## The unread badge -/

theorem unread_cons (n : Notification) (l : List Notification) :
    unread (n :: l) = (if n.read = true then 0 else 1) + unread l := by
  cases h : n.read
  · simp [unread, List.filter_cons, h]
    omega
  · simp [unread, List.filter_cons, h]

/-- Marking an id that no notification of the list has changes nothing. -/
theorem map_mark_absent (id : String) (l : List Notification) (h : ∀ n ∈ l, n._id ≠ id) :
    (l.map fun n => if n._id = id then { n with read := true } else n) = l := by
  induction l with
  | nil => rfl
  | cons x xs ih =>
    have hx : x._id ≠ id := h x (List.mem_cons_self _ _)
    simp only [List.map_cons, hx, if_false]
    rw [ih (fun n hn => h n (List.mem_cons_of_mem _ hn))]

theorem filter_absent (id : String) (l : List Notification) (h : ∀ n ∈ l, n._id ≠ id) :
    (l.filter fun n => n._id != id) = l := by
  rw [List.filter_eq_self]
  intro n hn
  simpa using h n hn

/-- In a list with distinct ids, marking an unread notification of the list
lowers the number of unread ones by one. -/
theorem unread_mark (n : Notification) :
    ∀ l : List Notification, (l.map (·._id)).Nodup → n ∈ l → n.read = false →
      unread (l.map fun x => if x._id = n._id then { x with read := true } else x) + 1
        = unread l := by
  intro l
  induction l with
  | nil => intro _ hn; cases hn
  | cons x xs ih =>
    intro hnd hn hr
    rw [List.map_cons, List.nodup_cons] at hnd
    obtain ⟨hx, hxs⟩ := hnd
    by_cases hid : x._id = n._id
    · have hnx : n = x := by
        rcases List.mem_cons.1 hn with h | h
        · exact h
        · exact absurd (List.mem_map_of_mem (·._id) h) (by rw [hid] at hx; exact hx)
      subst hnx
      have habs : ∀ y ∈ xs, y._id ≠ n._id := by
        intro y hy hyn
        exact hx (by rw [← hyn]; exact List.mem_map_of_mem (·._id) hy)
      rw [List.map_cons, map_mark_absent n._id xs habs, unread_cons, unread_cons]
      simp [hr]
      omega
    · have hn2 : n ∈ xs := by
        rcases List.mem_cons.1 hn with h | h
        · exact absurd (by rw [h]) hid
        · exact h
      have := ih hxs hn2 hr
      rw [List.map_cons, unread_cons, unread_cons]
      simp only [hid, if_false]
      omega

/-- In a list with distinct ids, deleting a notification of the list lowers the
number of unread ones by one when it was unread and not at all when it was read. -/
theorem unread_delete (n : Notification) :
    ∀ l : List Notification, (l.map (·._id)).Nodup → n ∈ l →
      unread (l.filter fun x => x._id != n._id) + (if n.read = true then 0 else 1) = unread l ∧
      l.find? (fun x => x._id == n._id) = some n := by
  intro l
  induction l with
  | nil => intro _ hn; cases hn
  | cons x xs ih =>
    intro hnd hn
    rw [List.map_cons, List.nodup_cons] at hnd
    obtain ⟨hx, hxs⟩ := hnd
    by_cases hid : x._id = n._id
    · have hnx : n = x := by
        rcases List.mem_cons.1 hn with h | h
        · exact h
        · exact absurd (List.mem_map_of_mem (·._id) h) (by rw [hid] at hx; exact hx)
      subst hnx
      have habs : ∀ y ∈ xs, y._id ≠ n._id := by
        intro y hy hyn
        exact hx (by rw [← hyn]; exact List.mem_map_of_mem (·._id) hy)
      refine ⟨?_, by simp⟩
      rw [List.filter_cons]
      simp only [bne_self_eq_false, Bool.false_eq_true, if_false]
      rw [filter_absent n._id xs habs, unread_cons]
      omega
    · have hn2 : n ∈ xs := by
        rcases List.mem_cons.1 hn with h | h
        · exact absurd (by rw [h]) hid
        · exact h
      obtain ⟨h1, h2⟩ := ih hxs hn2
      refine ⟨?_, ?_⟩
      · rw [List.filter_cons]
        have : (x._id != n._id) = true := by simpa using hid
        simp only [this, if_true]
        rw [unread_cons, unread_cons]
        omega
      · rw [List.find?_cons]
        have : (x._id == n._id) = false := by simpa using hid
        simp only [this]
        exact h2

theorem unread_all_read (l : List Notification) :
    unread (l.map fun n => { n with read := true }) = 0 := by
  simp [unread]

/-- What holds when nothing settles between a click and the settling of its
request (`render` and `s` are the same state): let `unreadCount` equal the
number of unread notifications, the ids of the list be distinct and `n` be a
notification of the list.  `handleNotificationClick` calls `markAsRead` exactly
when `n` is unread, and the equality holds again after that `markAsRead`,
after `markAllAsRead` (count 0, every notification read) and after
`deleteNotification` of `n` (count down by one exactly when `n` was unread);
the count is not negative after any of them. -/
theorem consistent_without_interleaving (s : State) (n : Notification) (hc : Consistent s)
    (hn : n ∈ s.notifications) (hid : (s.notifications.map (·._id)).Nodup) :
    ((handleNotificationClick s n).2 = (if n.read = true then none else some n._id) ∧
      (n.read = false → Consistent (markAsRead s s n._id true) ∧
        0 ≤ (markAsRead s s n._id true).unreadCount)) ∧
    (Consistent (markAllAsRead s s true) ∧ (markAllAsRead s s true).unreadCount = 0 ∧
      ∀ x ∈ (markAllAsRead s s true).notifications, x.read = true) ∧
    (Consistent (deleteNotification s s n._id true) ∧
      0 ≤ (deleteNotification s s n._id true).unreadCount ∧
      (deleteNotification s s n._id true).unreadCount
        = s.unreadCount - (if n.read = true then 0 else 1)) := by
  unfold Consistent at hc ⊢
  refine ⟨⟨?_, ?_⟩, ?_, ?_⟩
  · cases hr : n.read <;> simp [handleNotificationClick, hr]
  · intro hr
    have h := unread_mark n s.notifications hid hn hr
    simp only [markAsRead, if_true]
    refine ⟨?_, le_max_left _ _⟩
    rw [hc]
    omega
  · refine ⟨?_, by simp [markAllAsRead], ?_⟩
    · simp only [markAllAsRead, if_true]
      rw [unread_all_read]
      rfl
    · intro x hx
      simp only [markAllAsRead, if_true, List.mem_map] at hx
      obtain ⟨y, _, rfl⟩ := hx
      rfl
  · obtain ⟨h1, h2⟩ := unread_delete n s.notifications hid hn
    cases hr : n.read with
    | true =>
      rw [hr] at h1
      simp only [deleteNotification, h2, hr, if_true, Bool.not_true, Bool.false_eq_true,
        if_false]
      refine ⟨?_, by rw [hc]; exact Int.natCast_nonneg _, by simp⟩
      rw [hc]
      simp only [if_true] at h1
      omega
    | false =>
      rw [hr] at h1
      simp only [deleteNotification, h2, hr, if_true, Bool.not_false]
      simp only [Bool.false_eq_true, if_false] at h1 ⊢
      refine ⟨?_, le_max_left _ _, ?_⟩
      · rw [hc]
        omega
      · rw [hc]
        omega

/-- Failing input of C27: the list holds n1, unread, and n2, read, and the
count is 1.  In that render the user clicks "mark all as read" and then the
delete button of n2, before the first request has settled.  The PUT settles:
both notifications are read and the count is 0.  The DELETE settles: the list
becomes the list of the closure without n2, in which n1 is unread, and the
count, which is set only for an unread notification, stays 0.  Both calls
succeeded and the equality held before each; after them one notification is
unread and the count is 0. -/
theorem stale_delete_breaks_badge :
    Consistent sample ∧
    markAllAsRead sample sample true
      = ⟨[⟨"n1", true⟩, ⟨"n2", true⟩], 0, true, ["All notifications marked as read"]⟩ ∧
    Consistent (markAllAsRead sample sample true) ∧
    (deleteNotification sample (markAllAsRead sample sample true) "n2" true).notifications
      = [⟨"n1", false⟩] ∧
    (deleteNotification sample (markAllAsRead sample sample true) "n2" true).unreadCount = 0 ∧
    unread (deleteNotification sample (markAllAsRead sample sample true) "n2" true).notifications
      = 1 ∧
    ¬ Consistent (deleteNotification sample (markAllAsRead sample sample true) "n2" true) := by
  decide

end Notifications

namespace Feed

/-! ## Trending posts -/

theorem foldl_lengths (values : List (Option (List String))) :
    ∀ acc : Nat,
      values.foldl (fun sum arr => sum + (match arr with | some a => a.length | none => 0)) acc
        = acc + (values.map fun arr => (arr.getD []).length).sum := by
  induction values with
  | nil => intro acc; simp
  | cons v vs ih =>
    intro acc
    rw [List.foldl_cons, ih, List.map_cons, List.sum_cons]
    cases v with
    | none => simp
    | some a =>
      simp
      omega

/-- The engagement of a post in words: the reactions of all types, or the likes
when the post has no reactions object, plus twice the comments. -/
theorem engagement_eq (post : Post) :
    engagement post
      = (match post.reactions with
          | some values => (values.map fun arr => (arr.getD []).length).sum
          | none => (post.likes.getD []).length)
        + 2 * (post.comments.getD []).length := by
  unfold engagement
  cases hr : post.reactions <;> cases hl : post.likes <;> cases hc : post.comments <;>
    simp [foldl_lengths] <;> omega

/-- The sorted list of which `trendingPosts` keeps the first five. -/
theorem sorted_byEngagement (l : List Trending) :
    (l.insertionSort byEngagement).Pairwise byEngagement := by
  haveI : IsTotal Trending byEngagement := ⟨fun a b => Nat.le_total b.engagement a.engagement⟩
  haveI : IsTrans Trending byEngagement :=
    ⟨fun a b c (hab : b.engagement ≤ a.engagement) (hbc : c.engagement ≤ b.engagement) =>
      (Nat.le_trans hbc hab : c.engagement ≤ a.engagement)⟩
  exact List.sorted_insertionSort byEngagement l

/-- C28: for every list of posts, `trendingPosts` has `min 5 n` entries; each
entry is a post of the list with, as engagement, its reactions of all types
(its likes when it has no reactions object) plus twice its comments; the
entries are in non-increasing order of engagement; and the entries together
with the posts left out are the posts of the list, no post left out having a
greater engagement than an entry. -/
theorem trending_selection (data : List Post) :
    (trendingPosts data).length = min 5 data.length ∧
    (∀ e ∈ trendingPosts data, e.post ∈ data ∧
      e.engagement
        = (match e.post.reactions with
            | some values => (values.map fun arr => (arr.getD []).length).sum
            | none => (e.post.likes.getD []).length)
          + 2 * (e.post.comments.getD []).length) ∧
    (trendingPosts data).Pairwise (fun a b => b.engagement ≤ a.engagement) ∧
    ∃ rest : List Trending,
      (trendingPosts data ++ rest).Perm (data.map fun p => ⟨p, engagement p⟩) ∧
      ∀ x ∈ rest, ∀ y ∈ trendingPosts data, x.engagement ≤ y.engagement := by
  have hsorted := sorted_byEngagement (data.map fun p => (⟨p, engagement p⟩ : Trending))
  have hperm := List.perm_insertionSort byEngagement
    (data.map fun p => (⟨p, engagement p⟩ : Trending))
  refine ⟨?_, ?_, ?_, ?_⟩
  · simp [trendingPosts, List.length_take, List.length_insertionSort]
  · intro e he
    have h1 : e ∈ (data.map fun p => (⟨p, engagement p⟩ : Trending)) :=
      hperm.mem_iff.1 (List.mem_of_mem_take he)
    obtain ⟨p, hp, rfl⟩ := List.mem_map.1 h1
    exact ⟨hp, engagement_eq p⟩
  · exact hsorted.sublist (List.take_sublist 5 _)
  · refine ⟨((data.map fun p => (⟨p, engagement p⟩ : Trending)).insertionSort
      byEngagement).drop 5, ?_, ?_⟩
    · unfold trendingPosts
      rw [List.take_append_drop]
      exact hperm
    · intro x hx y hy
      have h := hsorted
      rw [← List.take_append_drop 5
        ((data.map fun p => (⟨p, engagement p⟩ : Trending)).insertionSort byEngagement),
        List.pairwise_append] at h
      exact h.2.2 y hy x hx

/-- Witness of C28: two posts, the one with fewer points first in the data. -/
theorem trending_selection_witness :
    (∀ x ∈ ([] : List Trending),
      ∀ y ∈ trendingPosts [⟨"p1", none, some ["u1"], none⟩,
        ⟨"p2", some [some ["u1", "u2"], none], none, some ["c1"]⟩],
      x.engagement ≤ y.engagement) ∧
    (trendingPosts [⟨"p1", none, some ["u1"], none⟩,
      ⟨"p2", some [some ["u1", "u2"], none], none, some ["c1"]⟩]).length = min 5 2 ∧
    trendingPosts [⟨"p1", none, some ["u1"], none⟩,
      ⟨"p2", some [some ["u1", "u2"], none], none, some ["c1"]⟩]
      = [⟨⟨"p2", some [some ["u1", "u2"], none], none, some ["c1"]⟩, 4⟩,
         ⟨⟨"p1", none, some ["u1"], none⟩, 1⟩] :=
  ⟨by simp,
    (trending_selection [⟨"p1", none, some ["u1"], none⟩,
      ⟨"p2", some [some ["u1", "u2"], none], none, some ["c1"]⟩]).1,
    by decide⟩

end Feed

namespace ProfileScore

/-! ## Completeness score -/

theorem bioPoints_bounds (u : User) :
    0 ≤ bioPoints u ∧ bioPoints u ≤ 20 ∧
    (25 ≤ length (u.bio.getD "") → bioPoints u = 20) ∧
    (length (u.bio.getD "") < 25 → bioPoints u ≤ 96 / 5) := by
  unfold bioPoints
  cases hb : u.bio with
  | none =>
    have h0 : length "" = 0 := rfl
    simp only [Option.getD_none, h0]
    refine ⟨le_refl _, by norm_num, fun h => by omega, fun _ => by norm_num⟩
  | some b =>
    simp only [Option.getD_some]
    by_cases hpos : length b > 0
    · simp only [hpos, if_true]
      have hq : (0 : ℚ) ≤ (length b : ℚ) := Nat.cast_nonneg _
      refine ⟨le_min (by norm_num) (by positivity), min_le_left _ _, ?_, ?_⟩
      · intro h
        have : (25 : ℚ) ≤ (length b : ℚ) := by exact_mod_cast h
        apply min_eq_left
        linarith
      · intro h
        have : (length b : ℚ) ≤ 24 := by
          have : length b ≤ 24 := by omega
          exact_mod_cast this
        refine le_trans (min_le_right _ _) ?_
        linarith
    · simp only [hpos, if_false]
      refine ⟨le_refl _, by norm_num, fun h => by omega, fun _ => by norm_num⟩

theorem picturePoints_bounds (u : User) :
    0 ≤ picturePoints u ∧ picturePoints u ≤ 10 ∧
    (u.profilePicture.getD "" ≠ "" → picturePoints u = 10) ∧
    (u.profilePicture.getD "" = "" → picturePoints u ≤ 0) := by
  unfold picturePoints
  cases hp : u.profilePicture with
  | none => simp
  | some p =>
    by_cases h : p = ""
    · simp [h]
    · simp [h]

/-- Bounds of the points given for a list: `unit` points an entry, capped at `cap`. -/
theorem listPoints_bounds (n cap unit full : Nat) (hfull : full * unit = cap)
    (hunit : 0 < unit) :
    0 ≤ (if n > 0 then min (cap : ℚ) ((n : ℚ) * unit) else 0) ∧
    (if n > 0 then min (cap : ℚ) ((n : ℚ) * unit) else 0) ≤ cap ∧
    (full ≤ n → (if n > 0 then min (cap : ℚ) ((n : ℚ) * unit) else 0) = cap) ∧
    (n < full → (if n > 0 then min (cap : ℚ) ((n : ℚ) * unit) else 0) ≤ (cap : ℚ) - unit) := by
  have hcap : (cap : ℚ) = (full : ℚ) * unit := by exact_mod_cast hfull.symm
  have hu : (0 : ℚ) < (unit : ℚ) := by exact_mod_cast hunit
  by_cases hpos : n > 0
  · simp only [hpos, if_true]
    refine ⟨le_min (Nat.cast_nonneg _) (by positivity), min_le_left _ _, ?_, ?_⟩
    · intro h
      apply min_eq_left
      rw [hcap]
      have : (full : ℚ) ≤ (n : ℚ) := by exact_mod_cast h
      exact mul_le_mul_of_nonneg_right this hu.le
    · intro h
      refine le_trans (min_le_right _ _) ?_
      rw [hcap]
      have : (n : ℚ) + 1 ≤ (full : ℚ) := by exact_mod_cast h
      nlinarith
  · simp only [hpos, if_false]
    have hn : n = 0 := by omega
    refine ⟨le_refl _, Nat.cast_nonneg _, ?_, ?_⟩
    · intro h
      have hf : full = 0 := by omega
      rw [hcap, hf]
      simp
    · intro h
      rw [hcap]
      have : (1 : ℚ) ≤ (full : ℚ) := by exact_mod_cast (by omega : 1 ≤ full)
      nlinarith

theorem experiencePoints_bounds (u : User) :
    0 ≤ experiencePoints u ∧ experiencePoints u ≤ 30 ∧
    (3 ≤ (u.experience.getD []).length → experiencePoints u = 30) ∧
    ((u.experience.getD []).length < 3 → experiencePoints u ≤ 20) := by
  have h := listPoints_bounds (u.experience.getD []).length 30 10 3 rfl (by norm_num)
  have he : experiencePoints u
      = if (u.experience.getD []).length > 0
        then min ((30 : Nat) : ℚ) (((u.experience.getD []).length : ℚ) * (10 : Nat)) else 0 := by
    unfold experiencePoints
    cases u.experience <;> simp
  rw [he]
  obtain ⟨h1, h2, h3, h4⟩ := h
  refine ⟨h1, by simpa using h2, fun hc => by simpa using h3 hc, fun hc => ?_⟩
  have := h4 hc
  norm_num at this ⊢
  exact this

theorem educationPoints_bounds (u : User) :
    0 ≤ educationPoints u ∧ educationPoints u ≤ 20 ∧
    (2 ≤ (u.education.getD []).length → educationPoints u = 20) ∧
    ((u.education.getD []).length < 2 → educationPoints u ≤ 10) := by
  have h := listPoints_bounds (u.education.getD []).length 20 10 2 rfl (by norm_num)
  have he : educationPoints u
      = if (u.education.getD []).length > 0
        then min ((20 : Nat) : ℚ) (((u.education.getD []).length : ℚ) * (10 : Nat)) else 0 := by
    unfold educationPoints
    cases u.education <;> simp
  rw [he]
  obtain ⟨h1, h2, h3, h4⟩ := h
  refine ⟨h1, by simpa using h2, fun hc => by simpa using h3 hc, fun hc => ?_⟩
  have := h4 hc
  norm_num at this ⊢
  exact this

theorem skillsPoints_bounds (u : User) :
    0 ≤ skillsPoints u ∧ skillsPoints u ≤ 20 ∧
    (10 ≤ (u.skills.getD []).length → skillsPoints u = 20) ∧
    ((u.skills.getD []).length < 10 → skillsPoints u ≤ 18) := by
  have h := listPoints_bounds (u.skills.getD []).length 20 2 10 rfl (by norm_num)
  have he : skillsPoints u
      = if (u.skills.getD []).length > 0
        then min ((20 : Nat) : ℚ) (((u.skills.getD []).length : ℚ) * (2 : Nat)) else 0 := by
    unfold skillsPoints
    cases u.skills <;> simp
  rw [he]
  obtain ⟨h1, h2, h3, h4⟩ := h
  refine ⟨h1, by simpa using h2, fun hc => by simpa using h3 hc, fun hc => ?_⟩
  have := h4 hc
  norm_num at this ⊢
  exact this

/-- The fields of the score record. -/
theorem score_fields (u : User) :
    (score u).maxScore = 100 ∧
    (score u).score
      = bioPoints u + picturePoints u + experiencePoints u + educationPoints u
        + skillsPoints u ∧
    (score u).percentage = ⌊(score u).score + 1 / 2⌋ ∧
    (score u).level = getLevel (score u).percentage := by
  refine ⟨by simp only [score]; norm_num, by simp only [score]; ring, ?_, rfl⟩
  simp only [score, round]
  congr 1
  norm_num

/-- C30: for every user record the maximum is 100, the total score lies
between 0 and 100, the percentage is an integer between 0 and 100, and it is
100 exactly when the bio has at least 25 characters, a profile picture is set
and there are at least 3 experience entries, 2 education entries and 10
skills.  The level is that of `getLevel` at the percentage: Expert from 90,
Professional from 70 to 89, Intermediate from 50 to 69, Beginner below 50. -/
theorem profile_score (u : User) :
    (score u).maxScore = 100 ∧
    (0 ≤ (score u).score ∧ (score u).score ≤ 100) ∧
    (0 ≤ (score u).percentage ∧ (score u).percentage ≤ 100) ∧
    ((score u).percentage = 100 ↔
      25 ≤ length (u.bio.getD "") ∧ u.profilePicture.getD "" ≠ "" ∧
      3 ≤ (u.experience.getD []).length ∧ 2 ≤ (u.education.getD []).length ∧
      10 ≤ (u.skills.getD []).length) ∧
    (score u).level = getLevel (score u).percentage ∧
    ∀ p : Int,
      (90 ≤ p → (getLevel p).name = "Expert") ∧
      (70 ≤ p → p < 90 → (getLevel p).name = "Professional") ∧
      (50 ≤ p → p < 70 → (getLevel p).name = "Intermediate") ∧
      (p < 50 → (getLevel p).name = "Beginner") := by
  obtain ⟨hmax, htotal, hpct, hlevel⟩ := score_fields u
  obtain ⟨b0, b1, b2, b3⟩ := bioPoints_bounds u
  obtain ⟨p0, p1, p2, p3⟩ := picturePoints_bounds u
  obtain ⟨e0, e1, e2, e3⟩ := experiencePoints_bounds u
  obtain ⟨d0, d1, d2, d3⟩ := educationPoints_bounds u
  obtain ⟨k0, k1, k2, k3⟩ := skillsPoints_bounds u
  have hlo : 0 ≤ (score u).score := by rw [htotal]; linarith
  have hhi : (score u).score ≤ 100 := by rw [htotal]; linarith
  have hp0 : 0 ≤ (score u).percentage := by
    rw [hpct]
    exact Int.floor_nonneg.2 (by linarith)
  have hp1 : (score u).percentage ≤ 100 := by
    rw [hpct]
    have : ⌊(score u).score + 1 / 2⌋ < 101 := Int.floor_lt.2 (by push_cast; linarith)
    omega
  refine ⟨hmax, ⟨hlo, hhi⟩, ⟨hp0, hp1⟩, ?_, hlevel, ?_⟩
  · constructor
    · intro h
      have h100 : ((100 : Int) : ℚ) ≤ (score u).score + 1 / 2 := by
        rw [← Int.le_floor, ← hpct, h]
      rw [htotal] at h100
      push_cast at h100
      refine ⟨?_, ?_, ?_, ?_, ?_⟩
      · by_contra hc
        have := b3 (by omega)
        linarith
      · intro hc
        have := p3 hc
        linarith
      · by_contra hc
        have := e3 (by omega)
        linarith
      · by_contra hc
        have := d3 (by omega)
        linarith
      · by_contra hc
        have := k3 (by omega)
        linarith
    · rintro ⟨c1, c2, c3, c4, c5⟩
      have h100 : (score u).score = 100 := by
        rw [htotal, b2 c1, p2 c2, e2 c3, d2 c4, k2 c5]
        norm_num
      rw [hpct, h100]
      norm_num
  · intro p
    unfold getLevel
    refine ⟨?_, ?_, ?_, ?_⟩
    · intro h
      simp [h]
    · intro h1 h2
      have : ¬ p ≥ 90 := by omega
      simp [this, h1]
    · intro h1 h2
      have a : ¬ p ≥ 90 := by omega
      have b : ¬ p ≥ 70 := by omega
      simp [a, b, h1]
    · intro h
      have a : ¬ p ≥ 90 := by omega
      have b : ¬ p ≥ 70 := by omega
      have c : ¬ p ≥ 50 := by omega
      simp [a, b, c]

/-- Witness of C30: a complete profile has 100 percent and the level Expert. -/
theorem profile_score_witness :
    (score ⟨some "Engineer, writer, mentor.", some "me.png", some ["a", "b", "c"],
      some ["x", "y"], some ["1", "2", "3", "4", "5", "6", "7", "8", "9", "10"]⟩).percentage
      = 100 ∧
    (getLevel 100).name = "Expert" :=
  ⟨(profile_score ⟨some "Engineer, writer, mentor.", some "me.png", some ["a", "b", "c"],
      some ["x", "y"], some ["1", "2", "3", "4", "5", "6", "7", "8", "9", "10"]⟩).2.2.2.1.2
      ⟨by decide, by decide, by decide, by decide, by decide⟩,
    ((profile_score ⟨none, none, none, none, none⟩).2.2.2.2.2 100).1 (by decide)⟩

end ProfileScore
